import Mathlib

/-!
# Verification of nartool's `store.py` against its specification

Shallow embedding of the nartool binary-cache store (`src/nartool/store.py`).
Python strings are embedded as `List Char` (a Python `str` is a sequence of
characters); Python `None` becomes `Option.none`; raised exceptions become
`Option`/`Except` failure values, and functions that mutate files become
explicit state-passing over association lists.

All embedded operations are structurally recursive, so every definition
evaluates inside the kernel (`rfl`/`decide`) on concrete inputs.
-/

/-- Embedding of a Python `str`: a sequence of characters. -/
abbrev Str := List Char

/-- Convenience conversion from a Lean string literal to the embedding. -/
def str (s : String) : Str := s.data

/-! ## Python string primitives

`splitChar c` embeds Python's `s.split(sep)` for a one-character separator
(`"\n"`, `" "`, `"/"`, `":"`), and `splitCS` embeds `s.split(': ')` for the
two-character separator used by the narinfo codec.  Both follow Python's
semantics exactly: splitting on every non-overlapping occurrence, left to
right, never returning an empty list. -/

/-- Python `s.split(c)` for a single-character separator `c`. -/
def splitChar (sep : Char) : Str → List Str
  | [] => [[]]
  | c :: rest =>
    if c = sep then [] :: splitChar sep rest
    else
      match splitChar sep rest with
      | [] => [[c]]
      | t :: ts => (c :: t) :: ts

/-- Python `s.split(': ')`: split on every non-overlapping occurrence of
the two-character separator `": "`, scanning left to right. -/
def splitCS : Str → List Str
  | [] => [[]]
  | [c] => [[c]]
  | c :: c2 :: rest =>
    if c = ':' ∧ c2 = ' ' then [] :: splitCS rest
    else
      match splitCS (c2 :: rest) with
      | [] => [[c]]
      | t :: ts => (c :: t) :: ts

/-- Whether `": "` occurs in `s` (used to reason about `splitCS`). -/
def hasCS : Str → Bool
  | [] => false
  | [_] => false
  | c :: c2 :: rest => (decide (c = ':' ∧ c2 = ' ')) || hasCS (c2 :: rest)

/-- Python `" ".join(l)` (and the general `sep.join(l)`). -/
def pyJoin (sep : Str) : List Str → Str
  | [] => []
  | [x] => x
  | x :: y :: ys => x ++ sep ++ pyJoin sep (y :: ys)

/-- Python `s.strip()`: drop leading and trailing whitespace. -/
def pyStrip (s : Str) : Str :=
  ((s.dropWhile Char.isWhitespace).reverse.dropWhile Char.isWhitespace).reverse

/-- Python `int(s)` on an already-stripped string of decimal digits; `none`
embeds the `ValueError` raised on any non-digit input.  (Python also accepts
signs and underscores; the store only ever feeds back its own decimal
output, so those forms never arise here.) -/
def pyInt? (s : Str) : Option Nat :=
  if s ≠ [] ∧ s.all Char.isDigit then
    some (s.foldl (fun a c => 10 * a + (c.toNat - 48)) 0)
  else none

/-- Decimal digits of `n`, most significant first; structural on the fuel
argument so that it evaluates in the kernel. -/
def natToStrAux : Nat → Nat → Str
  | 0, _ => []
  | _ + 1, 0 => []
  | f + 1, n + 1 => natToStrAux f ((n + 1) / 10) ++ [Nat.digitChar ((n + 1) % 10)]

/-- Python `str(n)` for a natural number. -/
def natToStr (n : Nat) : Str :=
  if n = 0 then ['0'] else natToStrAux n n

/-! ### Lemmas about the primitives -/

theorem splitChar_no_sep {sep : Char} {s : Str} (h : sep ∉ s) :
    splitChar sep s = [s] := by
  induction s with
  | nil => rfl
  | cons c rest ih =>
    have hc : ¬ c = sep := fun hh => h (hh ▸ List.mem_cons_self c rest)
    have hr : sep ∉ rest := fun hh => h (List.mem_cons_of_mem c hh)
    simp only [splitChar, if_neg hc, ih hr]

theorem splitChar_append_sep {sep : Char} {x : Str} (rest : Str) (h : sep ∉ x) :
    splitChar sep (x ++ sep :: rest) = x :: splitChar sep rest := by
  induction x with
  | nil => simp [splitChar]
  | cons c x' ih =>
    have hc : ¬ c = sep := fun hh => h (hh ▸ List.mem_cons_self c x')
    have hx : sep ∉ x' := fun hh => h (List.mem_cons_of_mem c hh)
    simp only [List.cons_append, splitChar, if_neg hc, List.append_eq, ih hx]

theorem splitCS_no (s : Str) (h : hasCS s = false) : splitCS s = [s] := by
  induction s with
  | nil => rfl
  | cons c t ih =>
    cases t with
    | nil => rfl
    | cons c2 r =>
      simp only [hasCS, Bool.or_eq_false_iff, decide_eq_false_iff_not] at h
      obtain ⟨h1, h2⟩ := h
      simp only [splitCS, if_neg h1, ih h2]

theorem splitCS_append {k : Str} (v : Str) (hk : ':' ∉ k) :
    splitCS (k ++ ':' :: ' ' :: v) = k :: splitCS v := by
  induction k with
  | nil => simp [splitCS]
  | cons a k' ih =>
    have ha : ¬ (a = ':' ∧ ' ' = ' ') ∧ ¬ (a = ':') := by
      constructor
      · rintro ⟨h1, -⟩; exact hk (h1 ▸ List.mem_cons_self a k')
      · intro h1; exact hk (h1 ▸ List.mem_cons_self a k')
    have hk' : ':' ∉ k' := fun hh => hk (List.mem_cons_of_mem a hh)
    cases k' with
    | nil =>
      show splitCS (a :: ':' :: ' ' :: v) = [a] :: splitCS v
      simp only [splitCS]
      rw [if_neg (by simp), if_pos (by simp)]
    | cons b k'' =>
      simp only [List.cons_append, splitCS, List.append_eq]
      rw [if_neg (by rcases Decidable.em (a = ':') with h | h <;> simp_all)]
      have := ih hk'
      simp only [List.cons_append] at this
      rw [this]

theorem splitCS_ne_nil (s : Str) : splitCS s ≠ [] := by
  cases s with
  | nil => simp [splitCS]
  | cons c t =>
    cases t with
    | nil => simp [splitCS]
    | cons c2 r =>
      simp only [splitCS]
      split
      · simp
      · cases splitCS (c2 :: r) <;> simp

theorem splitCS_length_two_le (v : Str) (h : hasCS v = true) :
    2 ≤ (splitCS v).length := by
  induction v with
  | nil => simp [hasCS] at h
  | cons c t ih =>
    cases t with
    | nil => simp [hasCS] at h
    | cons c2 r =>
      simp only [hasCS, Bool.or_eq_true, decide_eq_true_eq] at h
      simp only [splitCS]
      split
      · cases hr : splitCS r with
        | nil => exact absurd hr (splitCS_ne_nil _)
        | cons hd tl => simp
      · next hc =>
        have h2 : hasCS (c2 :: r) = true := by tauto
        have hlen := ih h2
        cases hr : splitCS (c2 :: r) with
        | nil => exact absurd hr (splitCS_ne_nil _)
        | cons hd tl =>
          rw [hr] at hlen
          simp only [List.length_cons] at hlen ⊢
          omega

theorem dropWhile_eq_self_of_all {p : Char → Bool} {s : Str}
    (h : ∀ c ∈ s, p c = false) : s.dropWhile p = s := by
  cases s with
  | nil => rfl
  | cons c t =>
    rw [List.dropWhile_cons, if_neg]
    simp [h c (List.mem_cons_self c t)]

theorem pyStrip_eq_self_of_all {s : Str}
    (h : ∀ c ∈ s, c.isWhitespace = false) : pyStrip s = s := by
  unfold pyStrip
  rw [dropWhile_eq_self_of_all h, dropWhile_eq_self_of_all, List.reverse_reverse]
  intro c hc
  exact h c (List.mem_reverse.mp hc)

theorem hasCS_of_no_colon {s : Str} (h : ':' ∉ s) : hasCS s = false := by
  induction s with
  | nil => rfl
  | cons c t ih =>
    cases t with
    | nil => rfl
    | cons c2 r =>
      have hc : ¬ c = ':' := fun hh => h (hh ▸ List.mem_cons_self c _)
      have ht : ':' ∉ c2 :: r := fun hh => h (List.mem_cons_of_mem c hh)
      simp only [hasCS, Bool.or_eq_false_iff, decide_eq_false_iff_not]
      exact ⟨fun hand => hc hand.1, ih ht⟩

/-- The ten decimal digit characters: recognized as digits, valued correctly,
and none of them is whitespace, a newline, a colon or a space. -/
theorem digitChar_facts : ∀ d, d < 10 →
    (Nat.digitChar d).isDigit = true ∧ (Nat.digitChar d).toNat - 48 = d ∧
    (Nat.digitChar d).isWhitespace = false ∧ Nat.digitChar d ≠ '\n' ∧
    Nat.digitChar d ≠ ':' ∧ Nat.digitChar d ≠ ' ' := by decide

theorem natToStrAux_mem {f : Nat} : ∀ {n : Nat} (c : Char), c ∈ natToStrAux f n →
    ∃ d, d < 10 ∧ c = Nat.digitChar d := by
  induction f with
  | zero => intro n c hc; simp [natToStrAux] at hc
  | succ f ih =>
    intro n c hc
    cases n with
    | zero => simp [natToStrAux] at hc
    | succ m =>
      simp only [natToStrAux, List.mem_append, List.mem_singleton] at hc
      rcases hc with hc | hc
      · exact ih c hc
      · exact ⟨(m + 1) % 10, Nat.mod_lt _ (by norm_num), hc⟩

theorem natToStr_mem {n : Nat} (c : Char) (hc : c ∈ natToStr n) :
    ∃ d, d < 10 ∧ c = Nat.digitChar d := by
  unfold natToStr at hc
  split at hc
  · simp only [List.mem_singleton] at hc
    exact ⟨0, by norm_num, hc⟩
  · exact natToStrAux_mem c hc

theorem natToStrAux_val : ∀ f n, n ≤ f →
    (natToStrAux f n).foldl (fun a c => 10 * a + (c.toNat - 48)) 0 = n := by
  intro f
  induction f with
  | zero => intro n hn; interval_cases n; rfl
  | succ f ih =>
    intro n hn
    cases n with
    | zero => rfl
    | succ m =>
      simp only [natToStrAux, List.foldl_append, List.foldl_cons, List.foldl_nil]
      have hq : (m + 1) / 10 ≤ f := by
        have := Nat.div_lt_self (Nat.succ_pos m) (by norm_num : 1 < 10)
        omega
      rw [ih _ hq]
      have hr := (digitChar_facts ((m + 1) % 10) (Nat.mod_lt _ (by norm_num))).2.1
      rw [hr]
      exact Nat.div_add_mod (m + 1) 10

theorem natToStrAux_ne_nil {f n : Nat} (h0 : 0 < n) (hf : n ≤ f) :
    natToStrAux f n ≠ [] := by
  cases f with
  | zero => omega
  | succ f =>
    cases n with
    | zero => omega
    | succ m => simp [natToStrAux]

theorem pyInt_natToStr (n : Nat) : pyInt? (natToStr n) = some n := by
  cases n with
  | zero => rfl
  | succ m =>
    have hne : natToStr (m + 1) ≠ [] := by
      unfold natToStr
      rw [if_neg (Nat.succ_ne_zero m)]
      exact natToStrAux_ne_nil (Nat.succ_pos m) le_rfl
    have hall : (natToStr (m + 1)).all Char.isDigit = true := by
      rw [List.all_eq_true]
      intro c hc
      obtain ⟨d, hd, rfl⟩ := natToStr_mem c hc
      exact (digitChar_facts d hd).1
    have hval : (natToStr (m + 1)).foldl (fun a c => 10 * a + (c.toNat - 48)) 0 = m + 1 := by
      unfold natToStr
      rw [if_neg (Nat.succ_ne_zero m)]
      exact natToStrAux_val (m + 1) (m + 1) le_rfl
    unfold pyInt?
    rw [if_pos ⟨hne, hall⟩, hval]

theorem pyStrip_natToStr (n : Nat) : pyStrip (natToStr n) = natToStr n := by
  apply pyStrip_eq_self_of_all
  intro c hc
  obtain ⟨d, hd, rfl⟩ := natToStr_mem c hc
  exact (digitChar_facts d hd).2.2.1

theorem no_nl_natToStr (n : Nat) : '\n' ∉ natToStr n := by
  intro h
  obtain ⟨d, hd, hc⟩ := natToStr_mem _ h
  exact (digitChar_facts d hd).2.2.2.1 hc.symm

theorem no_colon_natToStr (n : Nat) : ':' ∉ natToStr n := by
  intro h
  obtain ⟨d, hd, hc⟩ := natToStr_mem _ h
  exact (digitChar_facts d hd).2.2.2.2.1 hc.symm

/-! ## The metadata record: `NarInfo` (store.py lines 45-105)

The Python class is a `@dataclass` whose custom `__init__` sets only `Sig`,
`References` and `Deriver`; `Compression`, `FileHash`, `FileSize`, `System`
and `CA` have class-level defaults, and `StorePath`, `URL`, `NarHash`,
`NarSize` exist only once assigned (by parsing or by a caller).  We embed
"attribute absent / None" uniformly as `Option.none`; `Compression` always
has a value (class default `"none"`).  Unknown keys in a parsed text would
set dynamic attributes outside this schema; no well-formed record and no
claim involves them, so the embedding ignores them. -/

structure NarInfo where
  StorePath : Option Str
  URL : Option Str
  NarHash : Option Str
  NarSize : Option Nat
  Sig : List Str
  References : List Str
  Compression : Str
  FileHash : Option Str
  FileSize : Option Nat
  Deriver : Option Str
  System : Option Str
  CA : Option Str
deriving DecidableEq

/-- The record produced by `NarInfo()` with no text: `Sig = []`,
`References = []`, `Deriver = None`, plus the dataclass field defaults. -/
def NarInfo.empty : NarInfo :=
  ⟨none, none, none, none, [], [], str "none", none, none, none, none, none⟩

/-- Python line 79-80: a trailing empty token of a `References` split
(arising from a trailing space) is popped. -/
def dropTrailingEmpty (l : List Str) : List Str :=
  match l.getLast? with
  | some [] => l.dropLast
  | _ => l

/-- The key dispatch of `NarInfo.__init__` (store.py lines 69-82) applied to
one already-split `key`/`value` pair.  `FileSize`/`NarSize` values go through
`int(...)` (`pyInt?`; failure = uncaught `ValueError`), `Sig` accumulates,
`References` is split on single spaces with one trailing empty token dropped,
every other recognized key sets the corresponding scalar field. -/
def applyKV (i : NarInfo) (key value : Str) : Option NarInfo :=
  if key = str "FileSize" then (pyInt? value).map fun n => { i with FileSize := some n }
  else if key = str "NarSize" then (pyInt? value).map fun n => { i with NarSize := some n }
  else if key = str "Sig" then some { i with Sig := i.Sig ++ [value] }
  else if key = str "References" then
    some { i with References := dropTrailingEmpty (splitChar ' ' value) }
  else if key = str "StorePath" then some { i with StorePath := some value }
  else if key = str "URL" then some { i with URL := some value }
  else if key = str "NarHash" then some { i with NarHash := some value }
  else if key = str "Compression" then some { i with Compression := value }
  else if key = str "FileHash" then some { i with FileHash := some value }
  else if key = str "Deriver" then some { i with Deriver := some value }
  else if key = str "System" then some { i with System := some value }
  else if key = str "CA" then some { i with CA := some value }
  else some i

/-- One line of `NarInfo.__init__`: split on `": "` (every occurrence, as
Python `str.split` does); exactly two parts proceed to the key dispatch with
the value stripped; any other number of parts is skipped. -/
def applyLine (i : NarInfo) (line : Str) : Option NarInfo :=
  match splitCS line with
  | [key, raw] => applyKV i key (pyStrip raw)
  | _ => some i

/-- `NarInfo(text)`: fold the line dispatch over `text.split("\n")`. -/
def NarInfo.parse (text : Str) : Option NarInfo :=
  (splitChar '\n' text).foldlM applyLine NarInfo.empty

/-- One `"Key: Value\n"` output line of `NarInfo.to_str`; `none` (Python
`None`, or an empty list) is omitted entirely. -/
def emitS (key : Str) (v : Option Str) : Str :=
  match v with
  | none => []
  | some s => key ++ ':' :: ' ' :: s ++ ['\n']

/-- Numeric field: emitted via `str(value)`. -/
def emitN (key : Str) (v : Option Nat) : Str := emitS key (v.map natToStr)

/-- List field: `to_str` replaces an empty list by `None` and joins a
non-empty list with single spaces into one value (store.py lines 89-93). -/
def joinVal (l : List Str) : Option Str :=
  if l = [] then none else some (pyJoin [' '] l)

/-- `NarInfo.to_str` (store.py lines 84-98).  The Python loop iterates
`dir(self)`, which lists the attributes **alphabetically**:
CA, Compression, Deriver, FileHash, FileSize, NarHash, NarSize, References,
Sig, StorePath, System, URL.  List-valued fields (`Sig`, `References`) are
space-joined into a single line; absent fields produce nothing. -/
def NarInfo.to_str (i : NarInfo) : Str :=
  emitS (str "CA") i.CA ++
    (emitS (str "Compression") (some i.Compression) ++
      (emitS (str "Deriver") i.Deriver ++
        (emitS (str "FileHash") i.FileHash ++
          (emitN (str "FileSize") i.FileSize ++
            (emitS (str "NarHash") i.NarHash ++
              (emitN (str "NarSize") i.NarSize ++
                (emitS (str "References") (joinVal i.References) ++
                  (emitS (str "Sig") (joinVal i.Sig) ++
                    (emitS (str "StorePath") i.StorePath ++
                      (emitS (str "System") i.System ++
                        emitS (str "URL") i.URL))))))))))

/-! ### Evaluation of the key dispatch (one `rfl` lemma per recognized key) -/

theorem applyKV_FileSize (i : NarInfo) (v : Str) :
    applyKV i (str "FileSize") v = (pyInt? v).map fun n => { i with FileSize := some n } := rfl

theorem applyKV_NarSize (i : NarInfo) (v : Str) :
    applyKV i (str "NarSize") v = (pyInt? v).map fun n => { i with NarSize := some n } := rfl

theorem applyKV_Sig (i : NarInfo) (v : Str) :
    applyKV i (str "Sig") v = some { i with Sig := i.Sig ++ [v] } := rfl

theorem applyKV_References (i : NarInfo) (v : Str) :
    applyKV i (str "References") v
      = some { i with References := dropTrailingEmpty (splitChar ' ' v) } := rfl

theorem applyKV_StorePath (i : NarInfo) (v : Str) :
    applyKV i (str "StorePath") v = some { i with StorePath := some v } := rfl

theorem applyKV_URL (i : NarInfo) (v : Str) :
    applyKV i (str "URL") v = some { i with URL := some v } := rfl

theorem applyKV_NarHash (i : NarInfo) (v : Str) :
    applyKV i (str "NarHash") v = some { i with NarHash := some v } := rfl

theorem applyKV_Compression (i : NarInfo) (v : Str) :
    applyKV i (str "Compression") v = some { i with Compression := v } := rfl

theorem applyKV_FileHash (i : NarInfo) (v : Str) :
    applyKV i (str "FileHash") v = some { i with FileHash := some v } := rfl

theorem applyKV_Deriver (i : NarInfo) (v : Str) :
    applyKV i (str "Deriver") v = some { i with Deriver := some v } := rfl

theorem applyKV_System (i : NarInfo) (v : Str) :
    applyKV i (str "System") v = some { i with System := some v } := rfl

theorem applyKV_CA (i : NarInfo) (v : Str) :
    applyKV i (str "CA") v = some { i with CA := some v } := rfl

/-- A full `"key: raw"` line reaches the dispatch exactly when the key is
colon-free and the raw value does not itself contain `": "`. -/
theorem applyLine_keyval (i : NarInfo) (k raw : Str) (hk : ':' ∉ k)
    (hraw : hasCS raw = false) :
    applyLine i (k ++ ':' :: ' ' :: raw) = applyKV i k (pyStrip raw) := by
  unfold applyLine
  rw [splitCS_append raw hk, splitCS_no raw hraw]

/-- A line whose value contains a second `": "` splits into three or more
parts and is skipped by the parser (the record is returned unchanged). -/
theorem applyLine_skip_extra_sep (i : NarInfo) (k raw : Str) (hk : ':' ∉ k)
    (hraw : hasCS raw = true) :
    applyLine i (k ++ ':' :: ' ' :: raw) = some i := by
  unfold applyLine
  rw [splitCS_append raw hk]
  have h2 := splitCS_length_two_le raw hraw
  cases hr : splitCS raw with
  | nil => exact absurd hr (splitCS_ne_nil _)
  | cons a t =>
    rw [hr] at h2
    cases t with
    | nil => simp at h2
    | cons b t2 => rfl

/-- The empty trailing line produced by the final `"\n"` of `to_str` is
skipped. -/
theorem applyLine_nil (i : NarInfo) : applyLine i [] = some i := rfl

/-! ### Well-formedness of a record

A well-formed record is one whose field values can actually appear in the
text encoding: values are `strip`-invariant, contain no newline and no
`": "` separator; reference names are non-empty and contain neither spaces
(they are space-joined) nor colons (a name ending in `:` followed by the
joining space would fabricate a `": "` separator; Nix store names contain
no `:`). -/

def goodScalar (s : Str) : Prop :=
  pyStrip s = s ∧ hasCS s = false ∧ '\n' ∉ s

def goodOpt : Option Str → Prop
  | none => True
  | some s => goodScalar s

def goodRef (s : Str) : Prop :=
  pyStrip s = s ∧ s ≠ [] ∧ ' ' ∉ s ∧ ':' ∉ s ∧ '\n' ∉ s

def WF (r : NarInfo) : Prop :=
  goodOpt r.StorePath ∧ goodOpt r.URL ∧ goodOpt r.NarHash ∧
    goodScalar r.Compression ∧ goodOpt r.FileHash ∧ goodOpt r.Deriver ∧
    goodOpt r.System ∧ goodOpt r.CA ∧
    (∀ s ∈ r.Sig, goodScalar s) ∧ (∀ s ∈ r.References, goodRef s)

instance goodScalar.decide (s : Str) : Decidable (goodScalar s) := by
  unfold goodScalar; infer_instance

instance goodOpt.decide (o : Option Str) : Decidable (goodOpt o) := by
  cases o <;> unfold goodOpt <;> infer_instance

instance goodRef.decide (s : Str) : Decidable (goodRef s) := by
  unfold goodRef; infer_instance

instance WF.decide (r : NarInfo) : Decidable (WF r) := by
  unfold WF; infer_instance

/-! ### Concrete records used to test the codec -/

/-- A well-formed record carrying two signatures (and otherwise typical
fields). -/
def rTwoSigs : NarInfo :=
  ⟨some (str "/nix/store/p"), some (str "nar/p.nar.xz"), some (str "sha256:abc"),
    some 5, [str "k1:s1", str "k2:s2"], [], str "xz", none, none, none, none, none⟩

/-- A well-formed record with every field present and two signatures. -/
def rFull : NarInfo :=
  ⟨some (str "/nix/store/aaa-x"), some (str "nar/abc.nar.xz"), some (str "sha256:h1"),
    some 7, [str "k1:s1", str "k2:s2"], [str "bref-y"], str "xz",
    some (str "sha256:h2"), some 3, some (str "d.drv"), some (str "x86_64-linux"),
    some (str "fixed:h3")⟩

/-- Serializer following the claimed field order (spec section 6 and claim
C7): StorePath, URL, NarHash, NarSize, Compression, FileHash, FileSize,
Deriver, System, CA, then one line per signature, then one References line.
Written from the claim's words, to be compared against `NarInfo.to_str`. -/
def sigLinesClaim : List Str → Str
  | [] => []
  | s :: rest => str "Sig" ++ ':' :: ' ' :: s ++ '\n' :: sigLinesClaim rest

def serializeClaimOrder (i : NarInfo) : Str :=
  emitS (str "StorePath") i.StorePath ++
    (emitS (str "URL") i.URL ++
      (emitS (str "NarHash") i.NarHash ++
        (emitN (str "NarSize") i.NarSize ++
          (emitS (str "Compression") (some i.Compression) ++
            (emitS (str "FileHash") i.FileHash ++
              (emitN (str "FileSize") i.FileSize ++
                (emitS (str "Deriver") i.Deriver ++
                  (emitS (str "System") i.System ++
                    (emitS (str "CA") i.CA ++
                      (sigLinesClaim i.Sig ++
                        emitS (str "References") (joinVal i.References)))))))))))

/-! ### The alphabetical serialization (amended C7) -/

/-- The line contributed by one field, `none` when the field is absent. -/
def lineOf (k : Str) (v : Option Str) : Option Str :=
  v.map (fun s => k ++ ':' :: ' ' :: s)

/-- Terminate every line with a newline and concatenate. -/
def glueLines (L : List Str) : Str := L.foldr (fun l acc => l ++ '\n' :: acc) []

/-- The lines of a serialized record, written directly from the amended
claim: one line per present field, in alphabetical attribute order, with
`Sig` and `References` space-joined into single lines and empty lists
omitted. -/
def specLinesAlpha (i : NarInfo) : List Str :=
  [lineOf (str "CA") i.CA,
   lineOf (str "Compression") (some i.Compression),
   lineOf (str "Deriver") i.Deriver,
   lineOf (str "FileHash") i.FileHash,
   lineOf (str "FileSize") (i.FileSize.map natToStr),
   lineOf (str "NarHash") i.NarHash,
   lineOf (str "NarSize") (i.NarSize.map natToStr),
   lineOf (str "References") (joinVal i.References),
   lineOf (str "Sig") (joinVal i.Sig),
   lineOf (str "StorePath") i.StorePath,
   lineOf (str "System") i.System,
   lineOf (str "URL") i.URL].filterMap id

def specSerializeAlpha (i : NarInfo) : Str := glueLines (specLinesAlpha i)

theorem filterMap_id_cons (a : Option Str) (l : List (Option Str)) :
    List.filterMap id (a :: l) = a.toList ++ List.filterMap id l := by
  cases a <;> simp [List.filterMap_cons]

theorem glueLines_cons (l : Str) (L : List Str) :
    glueLines (l :: L) = l ++ '\n' :: glueLines L := rfl

theorem glueLines_append (L1 L2 : List Str) :
    glueLines (L1 ++ L2) = glueLines L1 ++ glueLines L2 := by
  induction L1 with
  | nil => rfl
  | cons l L ih =>
    rw [List.cons_append, glueLines_cons, glueLines_cons, ih, List.append_assoc,
      List.cons_append]

theorem emitS_glue (k : Str) (v : Option Str) :
    emitS k v = glueLines (lineOf k v).toList := by
  cases v with
  | none => rfl
  | some s => simp [emitS, lineOf, glueLines, List.append_assoc]

/-- Claim C7, counterexample: on a well-formed record with every field
present and two signatures, `to_str` does **not** produce the claimed fixed
order (StorePath first, signatures one per line, References last); the
actual output is in alphabetical attribute order with a single space-joined
`Sig` line. -/
theorem c7_serialize_order_counterexample :
    NarInfo.to_str rFull ≠ serializeClaimOrder rFull ∧ WF rFull := by
  constructor
  · decide
  · decide

/-- Claim C7 (corrected): for every record, serialization emits the
non-empty fields one line each in **alphabetical** attribute order — CA,
Compression, Deriver, FileHash, FileSize, NarHash, NarSize, References,
Sig, StorePath, System, URL — with `References` *and* `Sig` each
space-joined into a single line and omitted when empty. -/
theorem c7_serialize_alphabetical (i : NarInfo) :
    NarInfo.to_str i = specSerializeAlpha i := by
  unfold NarInfo.to_str specSerializeAlpha specLinesAlpha emitN
  simp only [emitS_glue, ← glueLines_append, filterMap_id_cons, List.filterMap_nil,
    List.append_nil, List.append_assoc]

/-- Claim C8, counterexample: the line `"StorePath: a: b"`, whose value
contains the substring `": "`, is **skipped** by the parser (Python's
`split(': ')` yields three parts), leaving `StorePath` unset instead of
assigning `"a: b"`. -/
theorem c8_first_sep_counterexample :
    NarInfo.parse (str "StorePath: a: b") = some NarInfo.empty ∧
      NarInfo.empty.StorePath = none :=
  ⟨rfl, rfl⟩

/-- Claim C8 (corrected): parsing splits each line on **every** occurrence
of `": "`; a line `"Key: Value"` whose value itself contains `": "` splits
into three or more parts and is skipped as malformed, leaving the record
unchanged. -/
theorem c8_extra_sep_line_skipped (k raw : Str) (hk : ':' ∉ k)
    (hnl : '\n' ∉ k ++ ':' :: ' ' :: raw) (hraw : hasCS raw = true) :
    NarInfo.parse (k ++ ':' :: ' ' :: raw) = some NarInfo.empty := by
  unfold NarInfo.parse
  rw [splitChar_no_sep hnl]
  simp [List.foldlM, applyLine_skip_extra_sep NarInfo.empty k raw hk hraw]

/-- Witness for `c8_extra_sep_line_skipped` at the concrete line
`"StorePath: a: b"`. -/
theorem c8_extra_sep_line_skipped_witness :
    NarInfo.parse (str "StorePath" ++ ':' :: ' ' :: str "a: b") = some NarInfo.empty :=
  c8_extra_sep_line_skipped (str "StorePath") (str "a: b") (by decide) (by decide)
    (by decide)

/-- Claim C1, counterexample: the well-formed record `rTwoSigs` carries two
signatures; `to_str` joins them into the single line `"Sig: k1:s1 k2:s2"`,
which parses back as **one** signature, so the round-trip does not restore
the record. -/
theorem c1_roundtrip_counterexample :
    NarInfo.parse (NarInfo.to_str rTwoSigs)
        = some { rTwoSigs with Sig := [str "k1:s1 k2:s2"] } ∧
      [str "k1:s1 k2:s2"] ≠ rTwoSigs.Sig ∧ WF rTwoSigs := by
  refine ⟨rfl, ?_, ?_⟩
  · decide
  · decide

/-! ### Strip-invariance and join lemmas (round-trip infrastructure) -/

theorem length_dropWhile_le (p : Char → Bool) (l : Str) :
    (l.dropWhile p).length ≤ l.length :=
  (List.dropWhile_suffix p).sublist.length_le

theorem dropWhile_eq_self_of_head {p : Char → Bool} {s : Str}
    (h : ∀ c, s.head? = some c → p c = false) : s.dropWhile p = s := by
  cases s with
  | nil => rfl
  | cons c t =>
    rw [List.dropWhile_cons, if_neg]
    simp [h c rfl]

theorem pyStrip_eq_self_of_ends {s : Str}
    (h1 : ∀ c, s.head? = some c → c.isWhitespace = false)
    (h2 : ∀ c, s.getLast? = some c → c.isWhitespace = false) :
    pyStrip s = s := by
  unfold pyStrip
  rw [dropWhile_eq_self_of_head h1, dropWhile_eq_self_of_head, List.reverse_reverse]
  intro c hc
  rw [List.head?_reverse] at hc
  exact h2 c hc

theorem dropWhile_eq_self_head {p : Char → Bool} {l : Str}
    (h : l.dropWhile p = l) {c : Char} (hc : l.head? = some c) : p c = false := by
  cases l with
  | nil => simp at hc
  | cons a t =>
    have hac : a = c := by simpa using hc
    subst hac
    rw [List.dropWhile_cons] at h
    by_cases hp : p a = true
    · rw [if_pos hp] at h
      have hle := length_dropWhile_le p t
      apply_fun List.length at h
      simp only [List.length_cons] at h
      omega
    · simpa using hp

theorem dropWhile_ws_of_pyStrip {s : Str} (h : pyStrip s = s) :
    s.dropWhile Char.isWhitespace = s := by
  have hsuf := List.dropWhile_suffix (l := s) Char.isWhitespace
  apply hsuf.eq_of_length
  have hlen1 : (pyStrip s).length ≤ (s.dropWhile Char.isWhitespace).length := by
    unfold pyStrip
    rw [List.length_reverse]
    calc ((s.dropWhile Char.isWhitespace).reverse.dropWhile Char.isWhitespace).length
        ≤ (s.dropWhile Char.isWhitespace).reverse.length :=
          length_dropWhile_le _ _
      _ = (s.dropWhile Char.isWhitespace).length := List.length_reverse _
  have hlen2 : (s.dropWhile Char.isWhitespace).length ≤ s.length :=
    length_dropWhile_le _ _
  rw [h] at hlen1
  omega

theorem pyStrip_head_not_ws {s : Str} (h : pyStrip s = s) {c : Char}
    (hc : s.head? = some c) : c.isWhitespace = false :=
  dropWhile_eq_self_head (dropWhile_ws_of_pyStrip h) hc

theorem pyStrip_getLast_not_ws {s : Str} (h : pyStrip s = s) {c : Char}
    (hc : s.getLast? = some c) : c.isWhitespace = false := by
  have hd := dropWhile_ws_of_pyStrip h
  have hrev : s.reverse.dropWhile Char.isWhitespace = s.reverse := by
    have hh := h
    unfold pyStrip at hh
    rw [hd] at hh
    rw [← List.reverse_inj, List.reverse_reverse] at hh
    exact hh
  apply dropWhile_eq_self_head hrev
  rw [List.head?_reverse]
  exact hc

theorem mem_pyJoin {c : Char} {sep : Str} {l : List Str}
    (hc : c ∈ pyJoin sep l) : c ∈ sep ∨ ∃ s ∈ l, c ∈ s := by
  induction l with
  | nil => simp [pyJoin] at hc
  | cons x rest ih =>
    cases rest with
    | nil =>
      right
      exact ⟨x, List.mem_cons_self x [], hc⟩
    | cons y ys =>
      simp only [pyJoin, List.append_assoc, List.mem_append] at hc
      rcases hc with hc | hc | hc
      · exact Or.inr ⟨x, List.mem_cons_self x _, hc⟩
      · exact Or.inl hc
      · rcases ih hc with hh | ⟨s, hs, hcs⟩
        · exact Or.inl hh
        · exact Or.inr ⟨s, List.mem_cons_of_mem x hs, hcs⟩

theorem not_mem_pyJoin_sp {c : Char} {l : List Str} (hcsp : c ≠ ' ')
    (h : ∀ s ∈ l, c ∉ s) : c ∉ pyJoin [' '] l := by
  intro hc
  rcases mem_pyJoin hc with hh | ⟨s, hs, hcs⟩
  · simp only [List.mem_singleton] at hh
    exact hcsp hh
  · exact h s hs hcs

theorem pyJoin_ne_nil {l : List Str} (hne : l ≠ []) (h : ∀ s ∈ l, s ≠ []) :
    pyJoin [' '] l ≠ [] := by
  cases l with
  | nil => exact absurd rfl hne
  | cons x rest =>
    cases rest with
    | nil => exact h x (List.mem_cons_self x [])
    | cons y ys =>
      simp only [pyJoin]
      intro hh
      rw [List.append_assoc] at hh
      rcases List.append_eq_nil.mp hh with ⟨hx, -⟩
      exact h x (List.mem_cons_self x _) hx

theorem pyJoin_head? {x : Str} (rest : List Str) (hx : x ≠ []) :
    (pyJoin [' '] (x :: rest)).head? = x.head? := by
  cases rest with
  | nil => rfl
  | cons y ys =>
    cases x with
    | nil => exact absurd rfl hx
    | cons a t => rfl

theorem pyJoin_getLast? {l : List Str} (hne : l ≠ []) (h : ∀ s ∈ l, s ≠ []) :
    ∃ s ∈ l, (pyJoin [' '] l).getLast? = s.getLast? := by
  induction l with
  | nil => exact absurd rfl hne
  | cons x rest ih =>
    cases rest with
    | nil => exact ⟨x, List.mem_cons_self x [], rfl⟩
    | cons y ys =>
      have hrest : ∀ s ∈ y :: ys, s ≠ [] := fun s hs => h s (List.mem_cons_of_mem x hs)
      obtain ⟨s, hs, hlast⟩ := ih (by simp) hrest
      refine ⟨s, List.mem_cons_of_mem x hs, ?_⟩
      have hjoin : pyJoin [' '] (y :: ys) ≠ [] := pyJoin_ne_nil (by simp) hrest
      show (x ++ [' '] ++ pyJoin [' '] (y :: ys)).getLast? = s.getLast?
      rw [List.append_assoc, List.getLast?_append_of_ne_nil x (by simp),
        List.getLast?_append_of_ne_nil [' '] hjoin, hlast]

theorem pyStrip_pyJoin {l : List Str} (hne : l ≠ [])
    (h : ∀ s ∈ l, pyStrip s = s ∧ s ≠ []) :
    pyStrip (pyJoin [' '] l) = pyJoin [' '] l := by
  apply pyStrip_eq_self_of_ends
  · intro c hc
    cases l with
    | nil => exact absurd rfl hne
    | cons x rest =>
      rw [pyJoin_head? rest (h x (List.mem_cons_self x rest)).2] at hc
      exact pyStrip_head_not_ws (h x (List.mem_cons_self x rest)).1 hc
  · intro c hc
    obtain ⟨s, hs, hlast⟩ := pyJoin_getLast? hne (fun s hs => (h s hs).2)
    rw [hlast] at hc
    exact pyStrip_getLast_not_ws (h s hs).1 hc

theorem splitSp_pyJoin : ∀ (refs : List Str), refs ≠ [] →
    (∀ s ∈ refs, ' ' ∉ s) → splitChar ' ' (pyJoin [' '] refs) = refs := by
  intro refs
  induction refs with
  | nil => intro hne; exact absurd rfl hne
  | cons x rest ih =>
    intro hne h
    cases rest with
    | nil => exact splitChar_no_sep (h x (List.mem_cons_self x []))
    | cons y ys =>
      show splitChar ' ' (x ++ [' '] ++ pyJoin [' '] (y :: ys)) = x :: y :: ys
      rw [List.append_assoc, List.singleton_append,
        splitChar_append_sep _ (h x (List.mem_cons_self x _)),
        ih (by simp) (fun s hs => h s (List.mem_cons_of_mem x hs))]

theorem dropTrailingEmpty_eq_self (l : List Str) (h : ∀ s ∈ l, s ≠ []) :
    dropTrailingEmpty l = l := by
  unfold dropTrailingEmpty
  cases hl : l.getLast? with
  | none => rfl
  | some x =>
    cases x with
    | nil => exact absurd rfl (h [] (List.mem_of_mem_getLast? (by simp [hl])))
    | cons a t => rfl

/-! ### Line-by-line decomposition of `to_str` output -/

/-- The list of parse lines contributed by one emitted field. -/
def lineListOf (k : Str) (v : Option Str) : List Str :=
  match v with
  | none => []
  | some s => [k ++ ':' :: ' ' :: s]

theorem splitNl_emitS (k : Str) (v : Option Str) (rest : Str)
    (hk : '\n' ∉ k) (hv : ∀ s, v = some s → '\n' ∉ s) :
    splitChar '\n' (emitS k v ++ rest) = lineListOf k v ++ splitChar '\n' rest := by
  cases v with
  | none => rfl
  | some s =>
    have hline : '\n' ∉ k ++ ':' :: ' ' :: s := by
      intro hm
      rcases List.mem_append.mp hm with hm | hm
      · exact hk hm
      · simp only [List.mem_cons] at hm
        rcases hm with h1 | h1 | hm
        · exact absurd h1 (by decide)
        · exact absurd h1 (by decide)
        · exact hv s rfl hm
    have hshape : emitS k (some s) ++ rest = (k ++ ':' :: ' ' :: s) ++ '\n' :: rest := by
      simp [emitS, List.append_assoc]
    rw [hshape, splitChar_append_sep rest hline]
    rfl

/-! ### Folding the parser over one emitted field -/

theorem fold_seg_CA (acc : NarInfo) (v : Option Str) (rest : List Str)
    (hv : goodOpt v) (hacc : acc.CA = none) :
    List.foldlM applyLine acc (lineListOf (str "CA") v ++ rest)
      = List.foldlM applyLine { acc with CA := v } rest := by
  cases v with
  | none =>
    obtain ⟨sp, url, nh, ns, sg, rf, cp, fh, fs, dr, sy, ca⟩ := acc
    simp only at hacc
    subst hacc
    rfl
  | some s =>
    obtain ⟨h1, h2, h3⟩ := hv
    simp only [lineListOf, List.cons_append, List.nil_append, List.foldlM_cons]
    rw [applyLine_keyval acc (str "CA") s (by decide) h2, applyKV_CA, h1]
    rfl

theorem fold_seg_Compression (acc : NarInfo) (c : Str) (rest : List Str)
    (hc : goodScalar c) :
    List.foldlM applyLine acc (lineListOf (str "Compression") (some c) ++ rest)
      = List.foldlM applyLine { acc with Compression := c } rest := by
  obtain ⟨h1, h2, h3⟩ := hc
  simp only [lineListOf, List.cons_append, List.nil_append, List.foldlM_cons]
  rw [applyLine_keyval acc (str "Compression") c (by decide) h2, applyKV_Compression, h1]
  rfl

theorem fold_seg_Deriver (acc : NarInfo) (v : Option Str) (rest : List Str)
    (hv : goodOpt v) (hacc : acc.Deriver = none) :
    List.foldlM applyLine acc (lineListOf (str "Deriver") v ++ rest)
      = List.foldlM applyLine { acc with Deriver := v } rest := by
  cases v with
  | none =>
    obtain ⟨sp, url, nh, ns, sg, rf, cp, fh, fs, dr, sy, ca⟩ := acc
    simp only at hacc
    subst hacc
    rfl
  | some s =>
    obtain ⟨h1, h2, h3⟩ := hv
    simp only [lineListOf, List.cons_append, List.nil_append, List.foldlM_cons]
    rw [applyLine_keyval acc (str "Deriver") s (by decide) h2, applyKV_Deriver, h1]
    rfl

theorem fold_seg_FileHash (acc : NarInfo) (v : Option Str) (rest : List Str)
    (hv : goodOpt v) (hacc : acc.FileHash = none) :
    List.foldlM applyLine acc (lineListOf (str "FileHash") v ++ rest)
      = List.foldlM applyLine { acc with FileHash := v } rest := by
  cases v with
  | none =>
    obtain ⟨sp, url, nh, ns, sg, rf, cp, fh, fs, dr, sy, ca⟩ := acc
    simp only at hacc
    subst hacc
    rfl
  | some s =>
    obtain ⟨h1, h2, h3⟩ := hv
    simp only [lineListOf, List.cons_append, List.nil_append, List.foldlM_cons]
    rw [applyLine_keyval acc (str "FileHash") s (by decide) h2, applyKV_FileHash, h1]
    rfl

theorem fold_seg_FileSize (acc : NarInfo) (v : Option Nat) (rest : List Str)
    (hacc : acc.FileSize = none) :
    List.foldlM applyLine acc (lineListOf (str "FileSize") (v.map natToStr) ++ rest)
      = List.foldlM applyLine { acc with FileSize := v } rest := by
  cases v with
  | none =>
    obtain ⟨sp, url, nh, ns, sg, rf, cp, fh, fs, dr, sy, ca⟩ := acc
    simp only at hacc
    subst hacc
    rfl
  | some n =>
    simp only [Option.map_some', lineListOf, List.cons_append, List.nil_append,
      List.foldlM_cons]
    rw [applyLine_keyval acc (str "FileSize") (natToStr n) (by decide)
        (hasCS_of_no_colon (no_colon_natToStr n)),
      applyKV_FileSize, pyStrip_natToStr, pyInt_natToStr]
    rfl

theorem fold_seg_NarHash (acc : NarInfo) (v : Option Str) (rest : List Str)
    (hv : goodOpt v) (hacc : acc.NarHash = none) :
    List.foldlM applyLine acc (lineListOf (str "NarHash") v ++ rest)
      = List.foldlM applyLine { acc with NarHash := v } rest := by
  cases v with
  | none =>
    obtain ⟨sp, url, nh, ns, sg, rf, cp, fh, fs, dr, sy, ca⟩ := acc
    simp only at hacc
    subst hacc
    rfl
  | some s =>
    obtain ⟨h1, h2, h3⟩ := hv
    simp only [lineListOf, List.cons_append, List.nil_append, List.foldlM_cons]
    rw [applyLine_keyval acc (str "NarHash") s (by decide) h2, applyKV_NarHash, h1]
    rfl

theorem fold_seg_NarSize (acc : NarInfo) (v : Option Nat) (rest : List Str)
    (hacc : acc.NarSize = none) :
    List.foldlM applyLine acc (lineListOf (str "NarSize") (v.map natToStr) ++ rest)
      = List.foldlM applyLine { acc with NarSize := v } rest := by
  cases v with
  | none =>
    obtain ⟨sp, url, nh, ns, sg, rf, cp, fh, fs, dr, sy, ca⟩ := acc
    simp only at hacc
    subst hacc
    rfl
  | some n =>
    simp only [Option.map_some', lineListOf, List.cons_append, List.nil_append,
      List.foldlM_cons]
    rw [applyLine_keyval acc (str "NarSize") (natToStr n) (by decide)
        (hasCS_of_no_colon (no_colon_natToStr n)),
      applyKV_NarSize, pyStrip_natToStr, pyInt_natToStr]
    rfl

theorem fold_seg_References (acc : NarInfo) (refs : List Str) (rest : List Str)
    (hgood : ∀ s ∈ refs, goodRef s) (hacc : acc.References = []) :
    List.foldlM applyLine acc (lineListOf (str "References") (joinVal refs) ++ rest)
      = List.foldlM applyLine { acc with References := refs } rest := by
  by_cases hr : refs = []
  · subst hr
    obtain ⟨sp, url, nh, ns, sg, rf, cp, fh, fs, dr, sy, ca⟩ := acc
    simp only at hacc
    subst hacc
    rfl
  · have hj : joinVal refs = some (pyJoin [' '] refs) := by
      unfold joinVal
      rw [if_neg hr]
    rw [hj]
    have hCS : hasCS (pyJoin [' '] refs) = false :=
      hasCS_of_no_colon (not_mem_pyJoin_sp (by decide)
        (fun s hs => (hgood s hs).2.2.2.1))
    have hstrip : pyStrip (pyJoin [' '] refs) = pyJoin [' '] refs :=
      pyStrip_pyJoin hr (fun s hs => ⟨(hgood s hs).1, (hgood s hs).2.1⟩)
    simp only [lineListOf, List.cons_append, List.nil_append, List.foldlM_cons]
    rw [applyLine_keyval acc (str "References") _ (by decide) hCS, applyKV_References,
      hstrip, splitSp_pyJoin refs hr (fun s hs => (hgood s hs).2.2.1),
      dropTrailingEmpty_eq_self refs (fun s hs => (hgood s hs).2.1)]
    rfl

theorem fold_seg_Sig (acc : NarInfo) (sig : List Str) (rest : List Str)
    (hsig : sig.length ≤ 1) (hgood : ∀ s ∈ sig, goodScalar s) (hacc : acc.Sig = []) :
    List.foldlM applyLine acc (lineListOf (str "Sig") (joinVal sig) ++ rest)
      = List.foldlM applyLine { acc with Sig := sig } rest := by
  cases sig with
  | nil =>
    obtain ⟨sp, url, nh, ns, sg, rf, cp, fh, fs, dr, sy, ca⟩ := acc
    simp only at hacc
    subst hacc
    rfl
  | cons s tail =>
    cases tail with
    | nil =>
      have hj : joinVal [s] = some s := rfl
      rw [hj]
      obtain ⟨h1, h2, h3⟩ := hgood s (List.mem_cons_self s [])
      simp only [lineListOf, List.cons_append, List.nil_append, List.foldlM_cons]
      rw [applyLine_keyval acc (str "Sig") s (by decide) h2, applyKV_Sig, h1, hacc,
        List.nil_append]
      rfl
    | cons s2 t2 =>
      simp only [List.length_cons] at hsig
      omega

theorem fold_seg_StorePath (acc : NarInfo) (v : Option Str) (rest : List Str)
    (hv : goodOpt v) (hacc : acc.StorePath = none) :
    List.foldlM applyLine acc (lineListOf (str "StorePath") v ++ rest)
      = List.foldlM applyLine { acc with StorePath := v } rest := by
  cases v with
  | none =>
    obtain ⟨sp, url, nh, ns, sg, rf, cp, fh, fs, dr, sy, ca⟩ := acc
    simp only at hacc
    subst hacc
    rfl
  | some s =>
    obtain ⟨h1, h2, h3⟩ := hv
    simp only [lineListOf, List.cons_append, List.nil_append, List.foldlM_cons]
    rw [applyLine_keyval acc (str "StorePath") s (by decide) h2, applyKV_StorePath, h1]
    rfl

theorem fold_seg_System (acc : NarInfo) (v : Option Str) (rest : List Str)
    (hv : goodOpt v) (hacc : acc.System = none) :
    List.foldlM applyLine acc (lineListOf (str "System") v ++ rest)
      = List.foldlM applyLine { acc with System := v } rest := by
  cases v with
  | none =>
    obtain ⟨sp, url, nh, ns, sg, rf, cp, fh, fs, dr, sy, ca⟩ := acc
    simp only at hacc
    subst hacc
    rfl
  | some s =>
    obtain ⟨h1, h2, h3⟩ := hv
    simp only [lineListOf, List.cons_append, List.nil_append, List.foldlM_cons]
    rw [applyLine_keyval acc (str "System") s (by decide) h2, applyKV_System, h1]
    rfl

theorem fold_seg_URL (acc : NarInfo) (v : Option Str) (rest : List Str)
    (hv : goodOpt v) (hacc : acc.URL = none) :
    List.foldlM applyLine acc (lineListOf (str "URL") v ++ rest)
      = List.foldlM applyLine { acc with URL := v } rest := by
  cases v with
  | none =>
    obtain ⟨sp, url, nh, ns, sg, rf, cp, fh, fs, dr, sy, ca⟩ := acc
    simp only at hacc
    subst hacc
    rfl
  | some s =>
    obtain ⟨h1, h2, h3⟩ := hv
    simp only [lineListOf, List.cons_append, List.nil_append, List.foldlM_cons]
    rw [applyLine_keyval acc (str "URL") s (by decide) h2, applyKV_URL, h1]
    rfl

theorem goodOpt_noNl {v : Option Str} (h : goodOpt v) :
    ∀ s, v = some s → '\n' ∉ s := by
  intro s hs
  subst hs
  exact h.2.2

theorem mapNat_noNl (v : Option Nat) : ∀ s, v.map natToStr = some s → '\n' ∉ s := by
  intro s hs
  cases v with
  | none => simp at hs
  | some n =>
    simp only [Option.map_some', Option.some_inj] at hs
    subst hs
    exact no_nl_natToStr n

theorem joinVal_noNl {l : List Str} (h : ∀ s ∈ l, '\n' ∉ s) :
    ∀ s, joinVal l = some s → '\n' ∉ s := by
  intro s hs
  unfold joinVal at hs
  split at hs
  · simp at hs
  · obtain rfl : pyJoin [' '] l = s := by simpa using hs
    exact not_mem_pyJoin_sp (by decide) h

/-- Claim C1 (corrected): for every well-formed record whose signature list
has **at most one** entry, parsing the serialized text restores the record
exactly (`parse (to_str r) = some r`); an empty `Sig`/`References` list
serializes to nothing and parses back to the empty list.  (With two or more
signatures the round-trip fails: see the counterexample.) -/
theorem c1_roundtrip_single_sig (r : NarInfo) (hwf : WF r)
    (hsig : r.Sig.length ≤ 1) : NarInfo.parse (NarInfo.to_str r) = some r := by
  obtain ⟨sp, url, nh, ns, sg, rf, cp, fh, fs, dr, sy, ca⟩ := r
  obtain ⟨hsp, hurl, hnh, hcp, hfh, hdr, hsy, hca, hsg, hrf⟩ := hwf
  unfold NarInfo.parse NarInfo.to_str emitN
  rw [show emitS (str "URL") url = emitS (str "URL") url ++ [] from
    (List.append_nil _).symm]
  rw [splitNl_emitS _ _ _ (by decide) (goodOpt_noNl hca),
    splitNl_emitS _ _ _ (by decide) (goodOpt_noNl (v := some cp) hcp),
    splitNl_emitS _ _ _ (by decide) (goodOpt_noNl hdr),
    splitNl_emitS _ _ _ (by decide) (goodOpt_noNl hfh),
    splitNl_emitS _ _ _ (by decide) (mapNat_noNl fs),
    splitNl_emitS _ _ _ (by decide) (goodOpt_noNl hnh),
    splitNl_emitS _ _ _ (by decide) (mapNat_noNl ns),
    splitNl_emitS _ _ _ (by decide) (joinVal_noNl (fun s hs => (hrf s hs).2.2.2.2)),
    splitNl_emitS _ _ _ (by decide) (joinVal_noNl (fun s hs => (hsg s hs).2.2)),
    splitNl_emitS _ _ _ (by decide) (goodOpt_noNl hsp),
    splitNl_emitS _ _ _ (by decide) (goodOpt_noNl hsy),
    splitNl_emitS _ _ _ (by decide) (goodOpt_noNl hurl)]
  rw [show splitChar '\n' ([] : Str) = [[]] from rfl]
  rw [fold_seg_CA _ _ _ hca rfl,
    fold_seg_Compression _ _ _ hcp,
    fold_seg_Deriver _ _ _ hdr rfl,
    fold_seg_FileHash _ _ _ hfh rfl,
    fold_seg_FileSize _ _ _ rfl,
    fold_seg_NarHash _ _ _ hnh rfl,
    fold_seg_NarSize _ _ _ rfl,
    fold_seg_References _ _ _ hrf rfl,
    fold_seg_Sig _ _ _ hsig hsg rfl,
    fold_seg_StorePath _ _ _ hsp rfl,
    fold_seg_System _ _ _ hsy rfl,
    fold_seg_URL _ _ _ hurl rfl]
  rfl

/-- A well-formed record with every field present and exactly one
signature. -/
def rFullOneSig : NarInfo :=
  ⟨some (str "/nix/store/aaa-x"), some (str "nar/abc.nar.xz"), some (str "sha256:h1"),
    some 7, [str "k1:s1"], [str "bref-y", str "cref-z"], str "xz",
    some (str "sha256:h2"), some 3, some (str "d.drv"), some (str "x86_64-linux"),
    some (str "fixed:h3")⟩

/-- Witness for `c1_roundtrip_single_sig`: a concrete well-formed record
with one signature round-trips exactly. -/
theorem c1_roundtrip_single_sig_witness :
    WF rFullOneSig ∧ rFullOneSig.Sig.length ≤ 1 ∧
      NarInfo.parse (NarInfo.to_str rFullOneSig) = some rFullOneSig :=
  ⟨by decide, by decide,
    c1_roundtrip_single_sig rFullOneSig (by decide) (by decide)⟩

/-! ## Identifier validation, `hash_from_name`, and the `Closure` container
(store.py lines 18-43 and 107-141) -/

/-- The 32-character restricted alphabet of the validation regex
`[0-9abcdfghijklmnpqrsvwxyz]{32}` (Nix base-32: digits plus lowercase
letters without `e`, `o`, `u`, `t`). -/
def nixChars : Str := str "0123456789abcdfghijklmnpqrsvwxyz"

/-- `nix_hash_is_valid` (store.py lines 18-22).  `re.match` anchors only at
the **start** of the string: the check succeeds whenever the string has at
least 32 characters and its first 32 characters are drawn from the
alphabet — longer strings are not rejected. -/
def nix_hash_is_valid (h : Str) : Bool :=
  decide (32 ≤ h.length) && (h.take 32).all (fun c => decide (c ∈ nixChars))

/-- `os.path.basename`: the part after the last `/`. -/
def basename (s : Str) : Str := (splitChar '/' s).getLastD []

/-- `hash_from_name` (store.py lines 30-43): `assert len(name) >= 32`
(`none` embeds the `AssertionError`), then the first 32 characters of the
basename. -/
def hash_from_name (name : Str) : Option Str :=
  if 32 ≤ name.length then some ((basename name).take 32) else none

/-- A closure is a Python dict from identifier to record: an
insertion-ordered association list with unique keys. -/
abbrev Closure := List (Str × NarInfo)

def containsKey (c : Closure) (k : Str) : Bool :=
  c.any (fun p => decide (p.1 = k))

/-- Python dict insertion: overwrite in place (keeping the position) when
the key exists, else append at the end. -/
def dictInsert (c : Closure) (k : Str) (v : NarInfo) : Closure :=
  if containsKey c k then c.map (fun p => if p.1 = k then (k, v) else p)
  else c ++ [(k, v)]

/-- `Closure.__setitem__` (store.py lines 137-141): `key_is_valid` raises
(`none`) unless the key passes `nix_hash_is_valid`; `value_is_valid` only
checks the dynamic type, which the Lean type of `v` already guarantees. -/
def closure_setitem (c : Closure) (k : Str) (v : NarInfo) : Option Closure :=
  if nix_hash_is_valid k then some (dictInsert c k v) else none

/-- `Closure.__init__` on a mapping (store.py lines 124-135): the dict
comprehension validates every key/value, raising on the first invalid
one. -/
def closure_init (l : List (Str × NarInfo)) : Option Closure :=
  l.foldlM (fun acc p => closure_setitem acc p.1 p.2) []

/-- The inner loop of `get_missing_refs` (store.py lines 246-248): `for ref
in narinfo.References`, appending `hash_from_name(ref)` whenever the
reference name is not a key; the assert inside `hash_from_name` aborts the
whole call (`none`). -/
def gmr_refs (closure : Closure) : List Str → List Str → Option (List Str)
  | [], acc => some acc
  | ref :: rs, acc =>
    if containsKey closure ref then gmr_refs closure rs acc
    else
      match hash_from_name ref with
      | none => none
      | some h => gmr_refs closure rs (acc ++ [h])

/-- The outer loop of `get_missing_refs`: `for _, narinfo in
closure.items()`. -/
def gmr_items (closure : Closure) : List (Str × NarInfo) → List Str → Option (List Str)
  | [], acc => some acc
  | p :: ps, acc =>
    match gmr_refs closure p.2.References acc with
    | none => none
    | some acc2 => gmr_items closure ps acc2

/-- `NarStore.get_missing_refs` (store.py lines 239-251). -/
def get_missing_refs (closure : Closure) : Option (List Str) :=
  gmr_items closure closure []

/-! ### Claim C5: validation is prefix-anchored, not fixed-width -/

/-- Claim C5, counterexample: the 33-character string `aaa…a` is accepted
by `nix_hash_is_valid` and by `Closure.__setitem__`, although its length is
not 32 — `re.match` only anchors the pattern at the start. -/
theorem c5_length33_accepted :
    nix_hash_is_valid (List.replicate 33 'a') = true ∧
      (List.replicate 33 'a').length ≠ 32 ∧
      closure_setitem [] (List.replicate 33 'a') NarInfo.empty
        = some [(List.replicate 33 'a', NarInfo.empty)] := by
  refine ⟨by decide, by decide, ?_⟩
  rfl

/-- Claim C5 (corrected): on both insertion paths (`__setitem__` and
construction) a key is accepted **iff** it is at least 32 characters long
and its first 32 characters are drawn from the restricted alphabet;
strings longer than 32 characters with a valid 32-character front are
accepted, not rejected. -/
theorem c5_validation_prefix_anchored :
    (∀ (c : Closure) (k : Str) (v : NarInfo),
        (closure_setitem c k v).isSome
          ↔ (32 ≤ k.length ∧ ∀ ch ∈ k.take 32, ch ∈ nixChars)) ∧
    (∀ l : List (Str × NarInfo),
        (closure_init l).isSome
          ↔ ∀ p ∈ l, 32 ≤ p.1.length ∧ ∀ ch ∈ p.1.take 32, ch ∈ nixChars) := by
  have hvalid : ∀ k : Str, nix_hash_is_valid k = true
      ↔ (32 ≤ k.length ∧ ∀ ch ∈ k.take 32, ch ∈ nixChars) := by
    intro k
    unfold nix_hash_is_valid
    simp [List.all_eq_true]
  constructor
  · intro c k v
    unfold closure_setitem
    rw [← hvalid k]
    cases h : nix_hash_is_valid k <;> simp [h]
  · have hgo : ∀ (l : List (Str × NarInfo)) (acc : Closure),
        (l.foldlM (fun acc p => closure_setitem acc p.1 p.2) acc).isSome
          ↔ ∀ p ∈ l, nix_hash_is_valid p.1 = true := by
      intro l
      induction l with
      | nil =>
        intro acc
        constructor
        · intro _ p hp
          exact absurd hp (List.not_mem_nil p)
        · intro _
          rfl
      | cons p ps ih =>
        intro acc
        by_cases h : nix_hash_is_valid p.1 = true
        · have hstep : closure_setitem acc p.1 p.2 = some (dictInsert acc p.1 p.2) := by
            unfold closure_setitem
            rw [if_pos h]
          rw [List.foldlM_cons, hstep]
          have hbind : (some (dictInsert acc p.1 p.2) >>= fun acc2 =>
              List.foldlM (fun acc q => closure_setitem acc q.1 q.2) acc2 ps)
                = List.foldlM (fun acc q => closure_setitem acc q.1 q.2)
                    (dictInsert acc p.1 p.2) ps := rfl
          rw [hbind, ih]
          constructor
          · intro hall q hq
            rcases List.mem_cons.mp hq with hq | hq
            · exact hq ▸ h
            · exact hall q hq
          · intro hall q hq
            exact hall q (List.mem_cons_of_mem p hq)
        · have hstep : closure_setitem acc p.1 p.2 = none := by
            unfold closure_setitem
            rw [if_neg h]
          rw [List.foldlM_cons, hstep]
          have hnone : ((none : Option Closure) >>= fun acc2 =>
              List.foldlM (fun acc q => closure_setitem acc q.1 q.2) acc2 ps)
                = none := rfl
          rw [hnone]
          simp only [Option.isSome_none, Bool.false_eq_true, false_iff]
          intro hall
          exact h (hall p (List.mem_cons_self p ps))
    intro l
    unfold closure_init
    rw [hgo l []]
    constructor
    · intro hall p hp
      exact (hvalid p.1).mp (hall p hp)
    · intro hall p hp
      exact (hvalid p.1).mpr (hall p hp)

/-- Witness for `c5_validation_prefix_anchored` at a concrete key. -/
theorem c5_validation_prefix_anchored_witness :
    (closure_setitem [] (List.replicate 33 'a') NarInfo.empty).isSome
      ↔ (32 ≤ (List.replicate 33 'a').length ∧
          ∀ ch ∈ (List.replicate 33 'a').take 32, ch ∈ nixChars) :=
  c5_validation_prefix_anchored.1 [] (List.replicate 33 'a') NarInfo.empty

/-! ### Claim C2: `get_missing_refs` checks the reference *name*, not the
derived identifier -/

/-- A valid 32-character identifier. -/
def hA : Str := List.replicate 32 'a'

/-- A record whose single reference *name* derives to `hA` but differs
from it. -/
def niRefA : NarInfo := { NarInfo.empty with References := [hA ++ str "-x"] }

def clC2 : Closure := [(hA, niRefA)]

/-- Claim C2, counterexample: in the closure `{hA ↦ niRefA}` the single
reference name `hA ++ "-x"` derives to the identifier `hA`, which **is** a
key of the closure; the claim says such a reference is never reported, yet
`get_missing_refs` reports it, because the membership test uses the full
reference name. -/
theorem c2_derived_key_still_reported :
    get_missing_refs clC2 = some [hA] ∧ containsKey clC2 hA = true ∧
      hash_from_name (hA ++ str "-x") = some hA ∧
      closure_init [(hA, niRefA)] = some clC2 := by
  refine ⟨?_, by decide, ?_, ?_⟩ <;> rfl


/-- Derive the identifier of every name in the list, failing (`none`) if
any trips the `hash_from_name` assert. -/
def deriveAll : List Str → Option (List Str)
  | [] => some []
  | r :: rs =>
    match hash_from_name r, deriveAll rs with
    | some h, some l => some (h :: l)
    | _, _ => none

/-- The missing-reference computation written from the amended claim's
words: the derived identifiers of exactly those references whose full
**name** is not a key of the closure, in iteration order. -/
def specMissingByName (closure : Closure) : Option (List Str) :=
  deriveAll ((closure.map (fun p =>
    p.2.References.filter (fun ref => ! containsKey closure ref))).flatten)

theorem deriveAll_append (l1 l2 : List Str) :
    deriveAll (l1 ++ l2)
      = match deriveAll l1, deriveAll l2 with
        | some a, some b => some (a ++ b)
        | _, _ => none := by
  induction l1 with
  | nil =>
    rw [List.nil_append]
    cases h : deriveAll l2 with
    | none => rfl
    | some b => rfl
  | cons r rs ih =>
    show deriveAll (r :: (rs ++ l2)) = _
    simp only [deriveAll, ih]
    cases hash_from_name r <;> cases deriveAll rs <;> cases deriveAll l2 <;> rfl

theorem gmr_refs_spec (closure : Closure) (refs : List Str) :
    ∀ acc, gmr_refs closure refs acc
      = (deriveAll (refs.filter (fun r => ! containsKey closure r))).map
          (fun l => acc ++ l) := by
  induction refs with
  | nil => intro acc; simp [gmr_refs, deriveAll]
  | cons r rs ih =>
    intro acc
    by_cases hm : containsKey closure r = true
    · rw [show gmr_refs closure (r :: rs) acc = gmr_refs closure rs acc from by
        simp [gmr_refs, hm]]
      rw [ih acc, List.filter_cons_of_neg (by simp [hm])]
    · rw [List.filter_cons_of_pos (by simp [hm])]
      cases hh : hash_from_name r with
      | none =>
        rw [show gmr_refs closure (r :: rs) acc = none from by simp [gmr_refs, hm, hh]]
        simp [deriveAll, hh]
      | some h =>
        rw [show gmr_refs closure (r :: rs) acc = gmr_refs closure rs (acc ++ [h]) from by
          simp [gmr_refs, hm, hh]]
        rw [ih (acc ++ [h])]
        simp only [deriveAll, hh]
        cases deriveAll (rs.filter (fun r => ! containsKey closure r)) <;>
          simp [List.append_assoc]

theorem gmr_items_spec (closure : Closure) (cl : List (Str × NarInfo)) :
    ∀ acc, gmr_items closure cl acc
      = (deriveAll ((cl.map (fun p =>
          p.2.References.filter (fun ref => ! containsKey closure ref))).flatten)).map
            (fun l => acc ++ l) := by
  induction cl with
  | nil => intro acc; simp [gmr_items, deriveAll]
  | cons p ps ih =>
    intro acc
    simp only [gmr_items, gmr_refs_spec closure p.2.References acc,
      List.map_cons, List.flatten_cons, deriveAll_append]
    cases h1 : deriveAll (p.2.References.filter
        (fun ref => ! containsKey closure ref)) with
    | none => rfl
    | some L1 =>
      simp only [Option.map_some']
      rw [ih (acc ++ L1)]
      cases h2 : deriveAll ((ps.map (fun p =>
          p.2.References.filter (fun ref => ! containsKey closure ref))).flatten) with
      | none => rfl
      | some L2 => simp [List.append_assoc]

/-- Claim C2 (corrected): `get_missing_refs` yields the derived identifiers
of exactly those references whose **name** is not a key of the closure; a
reference whose *derived identifier* is a key is still reported whenever
the name itself is not a key (see the counterexample). -/
theorem c2_missing_refs_by_name (closure : Closure) :
    get_missing_refs closure = specMissingByName closure := by
  unfold get_missing_refs specMissingByName
  rw [gmr_items_spec closure closure []]
  cases deriveAll ((closure.map (fun p =>
      p.2.References.filter (fun ref => ! containsKey closure ref))).flatten) with
  | none => rfl
  | some L => simp

/-! ## Closure resolution: `NarStore.get_closure` (store.py lines 219-237)

The record source (the store directory of `.narinfo` files) is a finite
map from identifier to record.  The Python function recurses; we give it an
explicit fuel argument bounding the recursion depth.  Every productive call
inserts one store key into the closure, so any fuel beyond the number of
reachable records changes nothing — the `∀ fuel` theorem below exhibits
this fuel-independence for the cyclic store, which is exactly the
termination of the unbounded recursion.

The broad `except` of the source swallows, per call: a failed
`read_narinfo` (missing file), a key rejected by `Closure.__setitem__`
validation, and the `hash_from_name` assert — the last aborts the
remaining references of the current record (the `Bool` flag in the
fold). -/

abbrev StoreMap := List (Str × NarInfo)

/-- `read_narinfo`: look the identifier up in the store. -/
def lookupStore (s : StoreMap) (h : Str) : Option NarInfo :=
  (s.find? (fun p => decide (p.1 = h))).map (fun p => p.2)

def get_closure_aux (store : StoreMap) : Nat → Str → Closure → Closure
  | 0, _, d => d
  | fuel + 1, h, d =>
    if containsKey d h then d
    else
      match lookupStore store h with
      | none => d
      | some info =>
        if nix_hash_is_valid h then
          (info.References.foldl
            (fun (st : Closure × Bool) ref =>
              if st.2 then st
              else if 32 ≤ ref.length then
                if (basename ref).take 32 = h then st
                else (get_closure_aux store fuel ((basename ref).take 32) st.1, false)
              else (st.1, true))
            (dictInsert d h info, false)).1
        else d

/-- `NarStore.get_closure(hash)` starting from the empty closure, with
enough fuel for every record of the store. -/
def get_closure (store : StoreMap) (h : Str) : Closure :=
  get_closure_aux store (store.length + 1) h []

/-- One-step unfolding of `get_closure_aux` at positive fuel. -/
theorem gc_aux_succ (store : StoreMap) (fuel : Nat) (h : Str) (d : Closure) :
    get_closure_aux store (fuel + 1) h d
      = if containsKey d h then d
        else
          match lookupStore store h with
          | none => d
          | some info =>
            if nix_hash_is_valid h then
              (info.References.foldl
                (fun (st : Closure × Bool) ref =>
                  if st.2 then st
                  else if 32 ≤ ref.length then
                    if (basename ref).take 32 = h then st
                    else (get_closure_aux store fuel ((basename ref).take 32) st.1, false)
                  else (st.1, true))
                (dictInsert d h info, false)).1
            else d := rfl

/-! ### The two-node cycle A → B → A -/

def hB : Str := List.replicate 32 'b'

/-- Record of `A`: references `B`'s name. -/
def niA : NarInfo := { NarInfo.empty with References := [hB ++ str "-b"] }

/-- Record of `B`: references `A`'s name. -/
def niB : NarInfo := { NarInfo.empty with References := [hA ++ str "-a"] }

def cycStore : StoreMap := [(hA, niA), (hB, niB)]

theorem gc_cyc_stop (n : Nat) (d : Closure) (hm : containsKey d hA = true) :
    get_closure_aux cycStore (n + 1) hA d = d := by
  rw [gc_aux_succ, if_pos hm]

theorem gc_cyc_B (n : Nat) :
    get_closure_aux cycStore (n + 2) hB [(hA, niA)] = [(hA, niA), (hB, niB)] := by
  have hfold : ∀ g : Str → Closure → Closure,
      ([hA ++ str "-a"].foldl
        (fun (st : Closure × Bool) ref =>
          if st.2 then st
          else if 32 ≤ ref.length then
            if (basename ref).take 32 = hB then st
            else (g ((basename ref).take 32) st.1, false)
          else (st.1, true))
        ([(hA, niA), (hB, niB)], false)).1 = g hA [(hA, niA), (hB, niB)] := by
    intro g
    simp only [List.foldl_cons, List.foldl_nil]
    rw [if_neg (by simp), if_pos (by decide), if_neg (by decide),
      show (basename (hA ++ str "-a")).take 32 = hA from by decide]
  show get_closure_aux cycStore ((n + 1) + 1) hB [(hA, niA)] = [(hA, niA), (hB, niB)]
  rw [gc_aux_succ, if_neg (by decide)]
  simp only [show lookupStore cycStore hB = some niB from rfl]
  rw [if_pos (by decide)]
  simp only [show niB.References = [hA ++ str "-a"] from rfl,
    show dictInsert [(hA, niA)] hB niB = [(hA, niA), (hB, niB)] from rfl]
  rw [hfold (get_closure_aux cycStore (n + 1)),
    gc_cyc_stop n [(hA, niA), (hB, niB)] (by decide)]

/-- Claim C6: closure resolution terminates on the two-node reference
cycle `A → B → A` and returns the closure with exactly the keys `A`, `B`.
The first conjunct holds for **every** fuel bound beyond the depth
actually needed, so the result is fuel-independent: the unbounded
recursion of the source terminates with this value.  The second conjunct
is `get_closure` at its stated fuel; the third spells out the key set. -/
theorem c6_cycle_resolution_terminates :
    (∀ n : Nat, get_closure_aux cycStore (n + 3) hA [] = [(hA, niA), (hB, niB)]) ∧
      get_closure cycStore hA = [(hA, niA), (hB, niB)] ∧
      [(hA, niA), (hB, niB)].map Prod.fst = [hA, hB] := by
  have hmain : ∀ n : Nat,
      get_closure_aux cycStore (n + 3) hA [] = [(hA, niA), (hB, niB)] := by
    intro n
    have hfold : ∀ g : Str → Closure → Closure,
        ([hB ++ str "-b"].foldl
          (fun (st : Closure × Bool) ref =>
            if st.2 then st
            else if 32 ≤ ref.length then
              if (basename ref).take 32 = hA then st
              else (g ((basename ref).take 32) st.1, false)
            else (st.1, true))
          ([(hA, niA)], false)).1 = g hB [(hA, niA)] := by
      intro g
      simp only [List.foldl_cons, List.foldl_nil]
      rw [if_neg (by simp), if_pos (by decide), if_neg (by decide),
        show (basename (hB ++ str "-b")).take 32 = hB from by decide]
    show get_closure_aux cycStore ((n + 2) + 1) hA [] = [(hA, niA), (hB, niB)]
    rw [gc_aux_succ, if_neg (by decide)]
    simp only [show lookupStore cycStore hA = some niA from rfl]
    rw [if_pos (by decide)]
    simp only [show niA.References = [hB ++ str "-b"] from rfl,
      show dictInsert [] hA niA = [(hA, niA)] from rfl]
    rw [hfold (get_closure_aux cycStore (n + 2)), gc_cyc_B n]
  exact ⟨hmain, hmain 0, rfl⟩

/-! ## Recompression: `NarStore.recompress_nar` (store.py lines 479-554)

The loop body shells out to external codecs and to `nix hash file`; those
externals are abstracted by `RecEnv`: the transport hash and byte size of
the recompressed payload of one identifier at one target compression.
Files on disk appear only through the store map of `.narinfo` records (the
payload bytes themselves never influence the record beyond the two
oracle values). -/

structure RecEnv where
  fileHash : Str → Str → Str
  fileSize : Str → Str → Nat

/-- One iteration of the `recompress_nar` loop: from the record read
(`info`) to the record written back, plus this identifier's contribution
to the old/new size totals.  `Except.error` embeds the exceptions the
Python code raises: unsupported current tag (line 499), unsupported target
tag (line 523), and the errors on records missing `NarSize`/`NarHash`
(`TypeError`/`AttributeError`/`IndexError`).  Python's `compression=None`
behaves exactly like `"none"`; the embedding keeps the string form. -/
def recompress_one (env : RecEnv) (hash : Str) (info : NarInfo)
    (compression : Str) : Except Str (NarInfo × Nat × Nat) :=
  if ¬ (info.Compression = str "none" ∨ info.Compression = str "xz" ∨
      info.Compression = str "zstd") then
    Except.error (str "Unsupported compression type (current)")
  else
    match (match info.FileSize with
           | some s => some s
           | none => info.NarSize) with
    | none => Except.error (str "TypeError: NarSize is None")
    | some szOld =>
      if compression = str "none" then
        match info.NarHash with
        | none => Except.error (str "AttributeError: NarHash missing")
        | some nh =>
          match (splitChar ':' nh).get? 1 with
          | none => Except.error (str "IndexError: NarHash has no colon")
          | some fh =>
            let info2 := { info with
              Compression := str "none", FileHash := none, FileSize := none,
              URL := some (str "nar/" ++ fh ++ str ".nar") }
            match info2.NarSize with
            | none => Except.error (str "TypeError: NarSize is None")
            | some szNew => Except.ok (info2, szOld, szNew)
      else if compression = str "xz" ∨ compression = str "zstd" then
        let ext := if compression = str "xz" then str ".xz" else str ".zstd"
        let fh := env.fileHash hash compression
        let info2 := { info with
          Compression := compression,
          FileHash := some (str "sha256:" ++ fh),
          FileSize := some (env.fileSize hash compression),
          URL := some (str "nar/" ++ fh ++ str ".nar" ++ ext) }
        Except.ok (info2, szOld, env.fileSize hash compression)
      else Except.error (str "Unsupported compression type (target)")

/-- The `for hash in hashes` loop of `recompress_nar`, threading the store
(narinfo writes) and both size accumulators.  A missing record file
(`open` failing in `read_narinfo`) and every exception of the body
propagate out of the function: the loop stops, earlier writes persist,
and no sizes are returned. -/
def rec_go (env : RecEnv) (compression : Str) :
    StoreMap → Nat → Nat → List Str → StoreMap × Except Str (Nat × Nat)
  | st, so, sn, [] => (st, Except.ok (so, sn))
  | st, so, sn, h :: rest =>
    match lookupStore st h with
    | none => (st, Except.error (str "FileNotFoundError"))
    | some info =>
      match recompress_one env h info compression with
      | Except.error e => (st, Except.error e)
      | Except.ok (info2, dso, dsn) =>
        rec_go env compression (dictInsert st h info2) (so + dso) (sn + dsn) rest

/-- `NarStore.recompress_nar(hashes, compression)`: both size totals start
at zero. -/
def recompress_nar (env : RecEnv) (st : StoreMap) (hashes : List Str)
    (compression : Str) : StoreMap × Except Str (Nat × Nat) :=
  rec_go env compression st 0 0 hashes

/-- The fields recompression must not touch: content hash, content size,
canonical path, references, signatures, producer, platform,
content-addressing tag. -/
def frameOK (a b : NarInfo) : Prop :=
  b.NarHash = a.NarHash ∧ b.NarSize = a.NarSize ∧ b.StorePath = a.StorePath ∧
    b.References = a.References ∧ b.Sig = a.Sig ∧ b.Deriver = a.Deriver ∧
    b.System = a.System ∧ b.CA = a.CA

theorem frameOK_trans {a b c : NarInfo} (h1 : frameOK a b) (h2 : frameOK b c) :
    frameOK a c := by
  obtain ⟨x1, x2, x3, x4, x5, x6, x7, x8⟩ := h1
  obtain ⟨y1, y2, y3, y4, y5, y6, y7, y8⟩ := h2
  exact ⟨y1.trans x1, y2.trans x2, y3.trans x3, y4.trans x4, y5.trans x5,
    y6.trans x6, y7.trans x7, y8.trans x8⟩

theorem recompress_one_frame {env : RecEnv} {hash : Str} {info : NarInfo}
    {compression : Str} {info2 : NarInfo} {so sn : Nat}
    (hok : recompress_one env hash info compression = Except.ok (info2, so, sn)) :
    frameOK info info2 := by
  unfold recompress_one at hok
  split at hok
  · exact absurd hok (by simp)
  · split at hok
    · exact absurd hok (by simp)
    · split at hok
      · -- target "none"
        split at hok
        · exact absurd hok (by simp)
        · split at hok
          · exact absurd hok (by simp)
          · simp only [] at hok
            split at hok
            · exact absurd hok (by simp)
            · injection hok with hok2
              injection hok2 with h1 h23
              subst h1
              exact ⟨rfl, rfl, rfl, rfl, rfl, rfl, rfl, rfl⟩
      · -- target "xz"/"zstd" or unsupported
        split at hok
        · simp only [] at hok
          injection hok with hok2
          injection hok2 with h1 h23
          subst h1
          exact ⟨rfl, rfl, rfl, rfl, rfl, rfl, rfl, rfl⟩
        · exact absurd hok (by simp)

theorem lookupStore_cons (p : Str × NarInfo) (ps : StoreMap) (k2 : Str) :
    lookupStore (p :: ps) k2 = if p.1 = k2 then some p.2 else lookupStore ps k2 := by
  unfold lookupStore
  by_cases h : p.1 = k2
  · rw [List.find?_cons_of_pos _ (by simp [h]), if_pos h]
    simp
  · rw [List.find?_cons_of_neg _ (by simp [h]), if_neg h]

theorem containsKey_cons (p : Str × NarInfo) (ps : StoreMap) (k : Str) :
    containsKey (p :: ps) k = (decide (p.1 = k) || containsKey ps k) := by
  simp [containsKey, List.any_cons]

theorem lookupStore_map_replace_ne (st : StoreMap) (k : Str) (v : NarInfo)
    (k2 : Str) (hne : k2 ≠ k) :
    lookupStore (st.map (fun p => if p.1 = k then (k, v) else p)) k2
      = lookupStore st k2 := by
  induction st with
  | nil => rfl
  | cons p ps ih =>
    rw [List.map_cons, lookupStore_cons, lookupStore_cons p ps k2]
    by_cases hp : p.1 = k
    · rw [if_pos hp,
        if_neg (show ¬ ((k, v) : Str × NarInfo).1 = k2 from fun hh => hne hh.symm),
        if_neg (show ¬ p.1 = k2 from by rw [hp]; exact fun hh => hne hh.symm), ih]
    · rw [if_neg hp]
      by_cases hpk : p.1 = k2
      · rw [if_pos hpk, if_pos hpk]
      · rw [if_neg hpk, if_neg hpk, ih]

theorem lookupStore_map_replace_eq (st : StoreMap) (k : Str) (v : NarInfo)
    (hc : containsKey st k = true) :
    lookupStore (st.map (fun p => if p.1 = k then (k, v) else p)) k = some v := by
  induction st with
  | nil => simp [containsKey] at hc
  | cons p ps ih =>
    rw [List.map_cons, lookupStore_cons]
    by_cases hp : p.1 = k
    · rw [if_pos hp, if_pos (show ((k, v) : Str × NarInfo).1 = k from rfl)]
    · rw [if_neg hp, if_neg (show ¬ p.1 = k from hp)]
      apply ih
      rw [containsKey_cons] at hc
      simpa [hp] using hc

theorem lookupStore_not_contains (st : StoreMap) (k : Str)
    (hc : containsKey st k = false) : lookupStore st k = none := by
  induction st with
  | nil => rfl
  | cons p ps ih =>
    rw [containsKey_cons, Bool.or_eq_false_iff, decide_eq_false_iff_not] at hc
    rw [lookupStore_cons, if_neg hc.1, ih hc.2]

theorem lookupStore_append_single (st : StoreMap) (k : Str) (v : NarInfo)
    (k2 : Str) :
    lookupStore (st ++ [(k, v)]) k2
      = match lookupStore st k2 with
        | some w => some w
        | none => if k2 = k then some v else none := by
  induction st with
  | nil =>
    rw [List.nil_append, lookupStore_cons]
    by_cases h : k2 = k
    · rw [if_pos (show ((k, v) : Str × NarInfo).1 = k2 from h.symm), if_pos h]
      rfl
    · rw [if_neg (show ¬ ((k, v) : Str × NarInfo).1 = k2 from fun hh => h hh.symm),
        if_neg h]
      rfl
  | cons p ps ih =>
    rw [List.cons_append, lookupStore_cons, lookupStore_cons]
    by_cases hp : p.1 = k2
    · rw [if_pos hp, if_pos hp]
    · rw [if_neg hp, if_neg hp, ih]

/-- Effect of a Python dict write on a subsequent read. -/
theorem lookupStore_dictInsert (st : StoreMap) (k : Str) (v : NarInfo) (k2 : Str) :
    lookupStore (dictInsert st k v) k2
      = if k2 = k then some v else lookupStore st k2 := by
  unfold dictInsert
  by_cases hc : containsKey st k = true
  · rw [if_pos hc]
    by_cases hk : k2 = k
    · subst hk
      rw [if_pos rfl, lookupStore_map_replace_eq st k2 v hc]
    · rw [if_neg hk, lookupStore_map_replace_ne st k v k2 hk]
  · rw [if_neg hc, lookupStore_append_single]
    by_cases hk : k2 = k
    · subst hk
      rw [lookupStore_not_contains st k2 (by simpa using hc), if_pos rfl]
    · rw [if_neg hk]
      cases lookupStore st k2 <;> simp [hk]

theorem rec_go_frame (env : RecEnv) (compression : Str) :
    ∀ (hashes : List Str) (st : StoreMap) (so sn : Nat) (h : Str),
      lookupStore (rec_go env compression st so sn hashes).1 h = lookupStore st h ∨
      ∃ info info2, lookupStore st h = some info ∧
        lookupStore (rec_go env compression st so sn hashes).1 h = some info2 ∧
        frameOK info info2 := by
  intro hashes
  induction hashes with
  | nil =>
    intro st so sn h
    left
    rfl
  | cons hh rest ih =>
    intro st so sn h
    cases hl : lookupStore st hh with
    | none =>
      left
      simp only [rec_go, hl]
    | some info =>
      cases hr : recompress_one env hh info compression with
      | error e =>
        left
        simp only [rec_go, hl, hr]
      | ok trip =>
        obtain ⟨info2, dso, dsn⟩ := trip
        have hstep : rec_go env compression st so sn (hh :: rest)
            = rec_go env compression (dictInsert st hh info2) (so + dso) (sn + dsn)
                rest := by
          simp only [rec_go, hl, hr]
        rw [hstep]
        by_cases hhh : h = hh
        · subst hhh
          have hmid : lookupStore (dictInsert st h info2) h = some info2 := by
            rw [lookupStore_dictInsert, if_pos rfl]
          have hframe : frameOK info info2 := recompress_one_frame hr
          rcases ih (dictInsert st h info2) (so + dso) (sn + dsn) h with
            hcase | ⟨i1, i2, hm1, hm2, hf⟩
          · right
            exact ⟨info, info2, hl, by rw [hcase, hmid], hframe⟩
          · right
            rw [hmid] at hm1
            injection hm1 with hm1
            subst hm1
            exact ⟨info, i2, hl, hm2, frameOK_trans hframe hf⟩
        · have hmid : lookupStore (dictInsert st hh info2) h = lookupStore st h := by
            rw [lookupStore_dictInsert, if_neg hhh]
          rcases ih (dictInsert st hh info2) (so + dso) (sn + dsn) h with
            hcase | ⟨i1, i2, hm1, hm2, hf⟩
          · left
            rw [hcase, hmid]
          · right
            rw [hmid] at hm1
            exact ⟨i1, i2, hm1, hm2, hf⟩

/-- Claim C9: frame property of recompression.  Whatever record a
`recompress_nar` batch leaves in the store for an identifier differs from
the record originally there in at most the payload path (`URL`), the
compression tag, the transport hash (`FileHash`) and transport size
(`FileSize`): `NarHash`, `NarSize`, `StorePath`, `References`, `Sig`,
`Deriver`, `System` and `CA` are unchanged (untouched identifiers keep
their record identically). -/
theorem c9_recompress_frame (env : RecEnv) (compression : Str) (st : StoreMap)
    (hashes : List Str) (h : Str) (info info2 : NarInfo)
    (hbefore : lookupStore st h = some info)
    (hafter : lookupStore (recompress_nar env st hashes compression).1 h
      = some info2) :
    frameOK info info2 := by
  unfold recompress_nar at hafter
  rcases rec_go_frame env compression hashes st 0 0 h with hcase | ⟨i1, i2, hm1, hm2, hf⟩
  · rw [hafter, hbefore] at hcase
    injection hcase with hcase
    subst hcase
    exact ⟨rfl, rfl, rfl, rfl, rfl, rfl, rfl, rfl⟩
  · rw [hbefore] at hm1
    injection hm1 with hm1
    rw [hafter] at hm2
    injection hm2 with hm2
    subst hm1
    subst hm2
    exact hf

/-! ### Concrete recompression runs -/

def envC : RecEnv := ⟨fun _ _ => str "abc32", fun _ _ => 7⟩

def hC : Str := List.replicate 32 'c'

/-- An uncompressed record. -/
def rNone : NarInfo :=
  { rFullOneSig with Compression := str "none", FileHash := none, FileSize := none }

/-- A record with an unsupported compression tag. -/
def rGzip : NarInfo := { rFullOneSig with Compression := str "gzip" }

def stC3 : StoreMap := [(hA, rNone), (hB, rGzip), (hC, rNone)]

/-- What recompressing `rNone` to xz under `envC` writes back. -/
def rAout : NarInfo :=
  { rNone with
      Compression := str "xz",
      FileHash := some (str "sha256:abc32"),
      FileSize := some 7,
      URL := some (str "nar/abc32.nar.xz") }

/-- Witness for `c9_recompress_frame`: a concrete one-identifier batch. -/
theorem c9_recompress_frame_witness : frameOK rNone rAout :=
  c9_recompress_frame envC (str "xz") [(hA, rNone)] [hA] hA rNone rAout rfl rfl

/-- Claim C3, counterexample: in the batch `[hA, hB, hC]` the second
identifier `hB` carries the unsupported tag `"gzip"`.  `recompress_nar`
raises out of the loop: the result is an error (no aggregate sizes), the
first identifier's write persists, and the third identifier is never
processed — its record is untouched. -/
theorem c3_unsupported_aborts_batch_counterexample :
    recompress_nar envC stC3 [hA, hB, hC] (str "xz")
        = ([(hA, rAout), (hB, rGzip), (hC, rNone)],
            Except.error (str "Unsupported compression type (current)")) ∧
      lookupStore (recompress_nar envC stC3 [hA, hB, hC] (str "xz")).1 hC
        = some rNone := by
  constructor
  · rfl
  · rfl

theorem rec_go_append (env : RecEnv) (compression : Str) :
    ∀ (pre : List Str) (st : StoreMap) (so sn : Nat) (rest : List Str),
      rec_go env compression st so sn (pre ++ rest)
        = match rec_go env compression st so sn pre with
          | (st1, Except.ok (a, b)) => rec_go env compression st1 a b rest
          | (st1, Except.error e) => (st1, Except.error e) := by
  intro pre
  induction pre with
  | nil =>
    intro st so sn rest
    rfl
  | cons hh pre2 ih =>
    intro st so sn rest
    rw [List.cons_append]
    cases hl : lookupStore st hh with
    | none => simp only [rec_go, hl]
    | some info =>
      cases hr : recompress_one env hh info compression with
      | error e => simp only [rec_go, hl, hr]
      | ok trip =>
        obtain ⟨i2, dso, dsn⟩ := trip
        simp only [rec_go, hl, hr]
        exact ih _ _ _ rest

/-- Claim C3 (corrected): an unsupported compression tag is **not** fatal
for the single identifier only — it aborts the whole batch.  First
conjunct: an unsupported current tag makes the per-identifier step raise.
Second conjunct: after any successfully processed prefix, an identifier
whose step raises stops the loop at that point: the result carries the
error, the store keeps only the prefix's writes, and the identifiers after
the failing one are never processed. -/
theorem c3_unsupported_aborts_batch :
    (∀ (env : RecEnv) (h : Str) (info : NarInfo) (c : Str),
        ¬ (info.Compression = str "none" ∨ info.Compression = str "xz" ∨
            info.Compression = str "zstd") →
        recompress_one env h info c
          = Except.error (str "Unsupported compression type (current)")) ∧
    (∀ (env : RecEnv) (compression : Str) (st st1 : StoreMap) (pre : List Str)
        (h : Str) (post : List Str) (a b : Nat) (info : NarInfo) (e : Str),
        recompress_nar env st pre compression = (st1, Except.ok (a, b)) →
        lookupStore st1 h = some info →
        recompress_one env h info compression = Except.error e →
        recompress_nar env st (pre ++ h :: post) compression
          = (st1, Except.error e)) := by
  constructor
  · intro env h info c hbad
    unfold recompress_one
    rw [if_pos hbad]
  · intro env compression st st1 pre h post a b info e hpre hread hbad
    unfold recompress_nar at hpre ⊢
    rw [rec_go_append, hpre]
    simp only [rec_go, hread, hbad]

/-- Witness for `c3_unsupported_aborts_batch` at the concrete batch of the
counterexample. -/
theorem c3_unsupported_aborts_batch_witness :
    recompress_nar envC stC3 ([hA] ++ hB :: [hC]) (str "xz")
      = ([(hA, rAout), (hB, rGzip), (hC, rNone)],
          Except.error (str "Unsupported compression type (current)")) :=
  c3_unsupported_aborts_batch.2 envC (str "xz") stC3
    [(hA, rAout), (hB, rGzip), (hC, rNone)] [hA] hB [hC] 7 7 rGzip
    (str "Unsupported compression type (current)") rfl rfl rfl

/-! ## Cache fetching: `NarStore.fetch_from_cache` (store.py lines 442-477)

The outside world is a `FetchEnv`: `net` is an HTTP GET returning the body
on status 200 and `none` on any failure (non-200, timeout, exception —
the code treats them alike up to a warning); `localfs` reads an absolute
path for endpoints that are directories (`url[0] == "/"`).  The store
directory is a map from store-relative path to file content, and the
`log` records, in order, every URL the function reaches out to (narinfo
GET / `isfile` probe, then payload GET / `cp` source).  A `none` result
embeds an exception that escapes the function (only possible in the
local-path branch, which has no `try`). -/

structure FetchEnv where
  net : Str → Option Str
  localfs : Str → Option Str

structure FetchSt where
  files : List (Str × Str)
  log : List Str
deriving DecidableEq

/-- Python dict/file-system write for string contents. -/
def dictUpdF (c : List (Str × Str)) (k v : Str) : List (Str × Str) :=
  if c.any (fun p => decide (p.1 = k)) then
    c.map (fun p => if p.1 = k then (k, v) else p)
  else c ++ [(k, v)]

def lookupFile (c : List (Str × Str)) (k : Str) : Option Str :=
  (c.find? (fun p => decide (p.1 = k))).map (fun p => p.2)

/-- One iteration of the inner `for cache in cache_urls` loop for one
identifier (store.py lines 448-473).  Note the loop has **no break**: the
caller continues with the next endpoint whatever happens here. -/
def fetch_one_cache (env : FetchEnv) (h cache : Str) (st : FetchSt)
    (found : Bool) : Option (FetchSt × Bool) :=
  let url := cache ++ str "/" ++ h ++ str ".narinfo"
  if url.head? = some '/' then
    -- local-path mirror branch (no try/except: failures escape)
    match env.localfs url with
    | none => some ({ st with log := st.log ++ [url] }, found)
    | some text =>
      match NarInfo.parse text with
      | none => none
      | some info =>
        let st1 : FetchSt :=
          ⟨dictUpdF st.files (h ++ str ".narinfo") text, st.log ++ [url]⟩
        match info.URL with
        | none => none
        | some u =>
          let src := cache ++ str "/" ++ u
          let st2 : FetchSt :=
            ⟨(match env.localfs src with
              | some pc => dictUpdF st1.files u pc
              | none => st1.files), st1.log ++ [src]⟩
          some (st2, true)
  else
    -- HTTP branch, wholly inside try/except
    let st0 : FetchSt := ⟨st.files, st.log ++ [url]⟩
    match env.net url with
    | none => some (st0, found)
    | some text =>
      -- `found = True` is assigned before parsing; a parse error is caught
      match NarInfo.parse text with
      | none => some (st0, true)
      | some info =>
        let st1 : FetchSt := ⟨dictUpdF st0.files (h ++ str ".narinfo") text, st0.log⟩
        match info.URL with
        | none => some (st1, true)   -- TypeError joining None, caught
        | some u =>
          let purl := cache ++ str "/" ++ u
          let st2 : FetchSt := ⟨st1.files, st1.log ++ [purl]⟩
          match env.net purl with
          | none => some (st2, true)
          | some content => some (⟨dictUpdF st2.files u content, st2.log⟩, true)

/-- The full inner loop over the endpoint list. -/
def fetch_caches (env : FetchEnv) (h : Str) :
    List Str → FetchSt → Bool → Option (FetchSt × Bool)
  | [], st, found => some (st, found)
  | c :: cs, st, found =>
    match fetch_one_cache env h c st found with
    | none => none
    | some (st1, f1) => fetch_caches env h cs st1 f1

/-- `fetch_from_cache(hashes, cache_urls)`: the outer loop (the `found`
flag only drives a stderr warning). -/
def fetch_from_cache (env : FetchEnv) :
    List Str → List Str → FetchSt → Option FetchSt
  | [], _, st => some st
  | h :: rest, caches, st =>
    match fetch_caches env h caches st false with
    | none => none
    | some (st1, _) => fetch_from_cache env rest caches st1

/-! ### Claim C4: no short-circuit over endpoints -/

def recText : Str := str "URL: nar/p.nar.xz"

/-- A network in which both endpoints `c1` and `c2` hold the record of
identifier `h` and its payload. -/
def envFetch : FetchEnv :=
  ⟨fun u =>
    if u = str "c1/h.narinfo" then some recText
    else if u = str "c1/nar/p.nar.xz" then some (str "PAYLOAD1")
    else if u = str "c2/h.narinfo" then some recText
    else if u = str "c2/nar/p.nar.xz" then some (str "PAYLOAD2")
    else none,
   fun _ => none⟩

/-- Claim C4, counterexample: endpoint `c1` successfully yields the record
and its payload, both of which are stored — and `fetch_from_cache`
nevertheless contacts `c2` as well (request log entries three and four),
re-downloading and overwriting the payload with `c2`'s copy.  There is no
break after a success. -/
theorem c4_no_short_circuit_counterexample :
    fetch_from_cache envFetch [str "h"] [str "c1", str "c2"] ⟨[], []⟩
        = some ⟨[(str "h.narinfo", recText), (str "nar/p.nar.xz", str "PAYLOAD2")],
            [str "c1/h.narinfo", str "c1/nar/p.nar.xz",
              str "c2/h.narinfo", str "c2/nar/p.nar.xz"]⟩ ∧
      str "c2/h.narinfo"
        ∈ [str "c1/h.narinfo", str "c1/nar/p.nar.xz",
            str "c2/h.narinfo", str "c2/nar/p.nar.xz"] := by
  constructor
  · rfl
  · decide

theorem fetch_one_cache_log {env : FetchEnv} {h cache : Str} {st : FetchSt}
    {found : Bool} {st1 : FetchSt} {f1 : Bool}
    (hres : fetch_one_cache env h cache st found = some (st1, f1)) :
    ∃ ext, st1.log
      = (st.log ++ [cache ++ str "/" ++ h ++ str ".narinfo"]) ++ ext := by
  unfold fetch_one_cache at hres
  simp only [] at hres
  split at hres
  · -- local branch
    split at hres
    · injection hres with hres2
      injection hres2 with h1 h2
      rw [← h1]
      exact ⟨[], (List.append_nil _).symm⟩
    · split at hres
      · exact absurd hres (by simp)
      · split at hres
        · exact absurd hres (by simp)
        · injection hres with hres2
          injection hres2 with h1 h2
          rw [← h1]
          exact ⟨_, rfl⟩
  · -- HTTP branch
    split at hres
    · injection hres with hres2
      injection hres2 with h1 h2
      rw [← h1]
      exact ⟨[], (List.append_nil _).symm⟩
    · split at hres
      · injection hres with hres2
        injection hres2 with h1 h2
        rw [← h1]
        exact ⟨[], (List.append_nil _).symm⟩
      · split at hres
        · injection hres with hres2
          injection hres2 with h1 h2
          rw [← h1]
          exact ⟨[], (List.append_nil _).symm⟩
        · split at hres
          · injection hres with hres2
            injection hres2 with h1 h2
            rw [← h1]
            exact ⟨_, rfl⟩
          · injection hres with hres2
            injection hres2 with h1 h2
            rw [← h1]
            exact ⟨_, rfl⟩

theorem fetch_caches_log_ext {env : FetchEnv} {h : Str} :
    ∀ {caches : List Str} {st : FetchSt} {found : Bool} {st2 : FetchSt} {f2 : Bool},
      fetch_caches env h caches st found = some (st2, f2) →
      ∃ ext, st2.log = st.log ++ ext := by
  intro caches
  induction caches with
  | nil =>
    intro st found st2 f2 hres
    injection hres with hres2
    injection hres2 with h1 h2
    rw [← h1]
    exact ⟨[], (List.append_nil _).symm⟩
  | cons c0 cs ih =>
    intro st found st2 f2 hres
    rw [show fetch_caches env h (c0 :: cs) st found
        = match fetch_one_cache env h c0 st found with
          | none => none
          | some (st1, f1) => fetch_caches env h cs st1 f1 from rfl] at hres
    cases hfoc : fetch_one_cache env h c0 st found with
    | none =>
      rw [hfoc] at hres
      exact absurd hres (by simp)
    | some p =>
      obtain ⟨stm, fm⟩ := p
      rw [hfoc] at hres
      obtain ⟨e1, h1⟩ := fetch_one_cache_log hfoc
      obtain ⟨e2, h2⟩ := ih hres
      refine ⟨[c0 ++ str "/" ++ h ++ str ".narinfo"] ++ e1 ++ e2, ?_⟩
      rw [h2, h1]
      simp [List.append_assoc]

/-- Claim C4 (corrected): for each identifier, `fetch_from_cache` contacts
**every** endpoint of the list — a success at an earlier endpoint does not
prevent the narinfo request to any later endpoint (there is no break);
whenever the per-identifier loop finishes without an escaping exception,
the request log contains the narinfo URL of every endpoint. -/
theorem c4_every_endpoint_contacted (env : FetchEnv) (h : Str) :
    ∀ (caches : List Str) (st : FetchSt) (found : Bool) (st2 : FetchSt) (f2 : Bool),
      fetch_caches env h caches st found = some (st2, f2) →
      ∀ c ∈ caches, (c ++ str "/" ++ h ++ str ".narinfo") ∈ st2.log := by
  intro caches
  induction caches with
  | nil =>
    intro st found st2 f2 hres c hc
    exact absurd hc (List.not_mem_nil c)
  | cons c0 cs ih =>
    intro st found st2 f2 hres c hc
    rw [show fetch_caches env h (c0 :: cs) st found
        = match fetch_one_cache env h c0 st found with
          | none => none
          | some (st1, f1) => fetch_caches env h cs st1 f1 from rfl] at hres
    cases hfoc : fetch_one_cache env h c0 st found with
    | none =>
      rw [hfoc] at hres
      exact absurd hres (by simp)
    | some p =>
      obtain ⟨stm, fm⟩ := p
      rw [hfoc] at hres
      rcases List.mem_cons.mp hc with rfl | hc2
      · obtain ⟨e1, h1⟩ := fetch_one_cache_log hfoc
        have hurl : (c ++ str "/" ++ h ++ str ".narinfo") ∈ stm.log := by
          rw [h1]
          exact List.mem_append_left _ (List.mem_append_right _ (by simp))
        obtain ⟨e2, h2⟩ := fetch_caches_log_ext hres
        rw [h2]
        exact List.mem_append_left _ hurl
      · exact ih stm fm st2 f2 hres c hc2

/-- Witness for `c4_every_endpoint_contacted`: with both endpoints serving
the record, the second endpoint's narinfo URL is still requested. -/
theorem c4_every_endpoint_contacted_witness :
    (str "c2" ++ str "/" ++ str "h" ++ str ".narinfo")
      ∈ (⟨[(str "h.narinfo", recText), (str "nar/p.nar.xz", str "PAYLOAD2")],
          [str "c1/h.narinfo", str "c1/nar/p.nar.xz", str "c2/h.narinfo",
            str "c2/nar/p.nar.xz"]⟩ : FetchSt).log :=
  c4_every_endpoint_contacted envFetch (str "h") [str "c1", str "c2"] ⟨[], []⟩ false
    ⟨[(str "h.narinfo", recText), (str "nar/p.nar.xz", str "PAYLOAD2")],
      [str "c1/h.narinfo", str "c1/nar/p.nar.xz", str "c2/h.narinfo",
        str "c2/nar/p.nar.xz"]⟩ true rfl (str "c2") (by decide)

/-! ### Claim C10: the record is persisted before the payload is attempted -/

theorem lookupFile_cons (p : Str × Str) (ps : List (Str × Str)) (k2 : Str) :
    lookupFile (p :: ps) k2 = if p.1 = k2 then some p.2 else lookupFile ps k2 := by
  unfold lookupFile
  by_cases h : p.1 = k2
  · rw [List.find?_cons_of_pos _ (by simp [h]), if_pos h]
    simp
  · rw [List.find?_cons_of_neg _ (by simp [h]), if_neg h]

theorem containsF_cons (p : Str × Str) (ps : List (Str × Str)) (k : Str) :
    (p :: ps).any (fun q => decide (q.1 = k))
      = (decide (p.1 = k) || ps.any (fun q => decide (q.1 = k))) := by
  simp [List.any_cons]

theorem lookupFile_map_replace_ne (c : List (Str × Str)) (k v : Str)
    (k2 : Str) (hne : k2 ≠ k) :
    lookupFile (c.map (fun p => if p.1 = k then (k, v) else p)) k2
      = lookupFile c k2 := by
  induction c with
  | nil => rfl
  | cons p ps ih =>
    rw [List.map_cons, lookupFile_cons, lookupFile_cons p ps k2]
    by_cases hp : p.1 = k
    · rw [if_pos hp,
        if_neg (show ¬ ((k, v) : Str × Str).1 = k2 from fun hh => hne hh.symm),
        if_neg (show ¬ p.1 = k2 from by rw [hp]; exact fun hh => hne hh.symm), ih]
    · rw [if_neg hp]
      by_cases hpk : p.1 = k2
      · rw [if_pos hpk, if_pos hpk]
      · rw [if_neg hpk, if_neg hpk, ih]

theorem lookupFile_map_replace_eq (c : List (Str × Str)) (k v : Str)
    (hc : c.any (fun q => decide (q.1 = k)) = true) :
    lookupFile (c.map (fun p => if p.1 = k then (k, v) else p)) k = some v := by
  induction c with
  | nil => simp at hc
  | cons p ps ih =>
    rw [List.map_cons, lookupFile_cons]
    by_cases hp : p.1 = k
    · rw [if_pos hp, if_pos (show ((k, v) : Str × Str).1 = k from rfl)]
    · rw [if_neg hp, if_neg (show ¬ p.1 = k from hp)]
      apply ih
      rw [containsF_cons] at hc
      simpa [hp] using hc

theorem lookupFile_not_contains (c : List (Str × Str)) (k : Str)
    (hc : c.any (fun q => decide (q.1 = k)) = false) : lookupFile c k = none := by
  induction c with
  | nil => rfl
  | cons p ps ih =>
    rw [containsF_cons, Bool.or_eq_false_iff, decide_eq_false_iff_not] at hc
    rw [lookupFile_cons, if_neg hc.1, ih hc.2]

theorem lookupFile_append_single (c : List (Str × Str)) (k v : Str) (k2 : Str) :
    lookupFile (c ++ [(k, v)]) k2
      = match lookupFile c k2 with
        | some w => some w
        | none => if k2 = k then some v else none := by
  induction c with
  | nil =>
    rw [List.nil_append, lookupFile_cons]
    by_cases h : k2 = k
    · rw [if_pos (show ((k, v) : Str × Str).1 = k2 from h.symm), if_pos h]
      rfl
    · rw [if_neg (show ¬ ((k, v) : Str × Str).1 = k2 from fun hh => h hh.symm),
        if_neg h]
      rfl
  | cons p ps ih =>
    rw [List.cons_append, lookupFile_cons, lookupFile_cons]
    by_cases hp : p.1 = k2
    · rw [if_pos hp, if_pos hp]
    · rw [if_neg hp, if_neg hp, ih]

theorem lookupFile_dictUpdF (c : List (Str × Str)) (k v : Str) (k2 : Str) :
    lookupFile (dictUpdF c k v) k2 = if k2 = k then some v else lookupFile c k2 := by
  unfold dictUpdF
  by_cases hc : c.any (fun p => decide (p.1 = k)) = true
  · rw [if_pos hc]
    by_cases hk : k2 = k
    · subst hk
      rw [if_pos rfl, lookupFile_map_replace_eq c k2 v hc]
    · rw [if_neg hk, lookupFile_map_replace_ne c k v k2 hk]
  · rw [if_neg hc, lookupFile_append_single]
    by_cases hk : k2 = k
    · subst hk
      rw [lookupFile_not_contains c k2 (Bool.eq_false_iff.mpr hc), if_pos rfl]
    · rw [if_neg hk]
      cases lookupFile c k2 <;> simp [hk]

/-- Claim C10: in the HTTP branch the narinfo file is written to the store
as soon as the record GET succeeds and parses, **before** the payload GET
is attempted; when the payload GET then fails, the run completes with the
record file present and the payload path still absent — an orphan
record. -/
theorem c10_record_written_before_payload (env : FetchEnv) (h cache text u : Str)
    (info : NarInfo) (st : FetchSt)
    (hhttp : ¬ (cache ++ str "/" ++ h ++ str ".narinfo").head? = some '/')
    (hrec : env.net (cache ++ str "/" ++ h ++ str ".narinfo") = some text)
    (hparse : NarInfo.parse text = some info)
    (hurl : info.URL = some u)
    (hpay : env.net (cache ++ str "/" ++ u) = none)
    (hukey : ¬ u = h ++ str ".narinfo")
    (habsent : lookupFile st.files u = none) :
    fetch_from_cache env [h] [cache] st
        = some ⟨dictUpdF st.files (h ++ str ".narinfo") text,
            st.log ++ [cache ++ str "/" ++ h ++ str ".narinfo"]
              ++ [cache ++ str "/" ++ u]⟩ ∧
      lookupFile (dictUpdF st.files (h ++ str ".narinfo") text)
          (h ++ str ".narinfo") = some text ∧
      lookupFile (dictUpdF st.files (h ++ str ".narinfo") text) u = none := by
  have hfoc : fetch_one_cache env h cache st false
      = some (⟨dictUpdF st.files (h ++ str ".narinfo") text,
          st.log ++ [cache ++ str "/" ++ h ++ str ".narinfo"]
            ++ [cache ++ str "/" ++ u]⟩, true) := by
    unfold fetch_one_cache
    simp only []
    rw [if_neg hhttp]
    simp only [hrec, hparse, hurl, hpay]
  refine ⟨?_, ?_, ?_⟩
  · rw [show fetch_from_cache env [h] [cache] st
        = match fetch_caches env h [cache] st false with
          | none => none
          | some (st1, _) => fetch_from_cache env [] [cache] st1 from rfl]
    rw [show fetch_caches env h [cache] st false
        = match fetch_one_cache env h cache st false with
          | none => none
          | some (st1, f1) => fetch_caches env h [] st1 f1 from rfl]
    rw [hfoc]
    rfl
  · rw [lookupFile_dictUpdF, if_pos rfl]
  · rw [lookupFile_dictUpdF, if_neg hukey, habsent]

/-- A network holding only the record of `h` at endpoint `c` (the payload
GET fails). -/
def envC10 : FetchEnv :=
  ⟨fun v => if v = str "c/h.narinfo" then some recText else none, fun _ => none⟩

def rC10info : NarInfo := { NarInfo.empty with URL := some (str "nar/p.nar.xz") }

/-- Witness for `c10_record_written_before_payload` at a concrete
endpoint. -/
theorem c10_record_written_before_payload_witness :
    fetch_from_cache envC10 [str "h"] [str "c"] ⟨[], []⟩
        = some ⟨dictUpdF ([] : List (Str × Str)) (str "h" ++ str ".narinfo") recText,
            ([] : List Str) ++ [str "c" ++ str "/" ++ str "h" ++ str ".narinfo"]
              ++ [str "c" ++ str "/" ++ str "nar/p.nar.xz"]⟩ ∧
      lookupFile (dictUpdF ([] : List (Str × Str)) (str "h" ++ str ".narinfo") recText)
          (str "h" ++ str ".narinfo") = some recText ∧
      lookupFile (dictUpdF ([] : List (Str × Str)) (str "h" ++ str ".narinfo") recText)
          (str "nar/p.nar.xz") = none :=
  c10_record_written_before_payload envC10 (str "h") (str "c") recText
    (str "nar/p.nar.xz") rC10info ⟨[], []⟩ (by decide) rfl rfl rfl rfl (by decide) rfl
